import Mathlib

/-!
Verification of the WNBA PBP extraction pipeline.

Modelling conventions, used throughout:
* Python strings are modelled as `List Char` (a Python `str` is a sequence of
  code points).  Concrete inputs are written as `"...".data`.
* Python floats are modelled as `ℚ` (the numeric values occurring in the
  claims are exact).
* `pandas` missing values (`NaN` / `None`) are modelled as `Option`.
* The Unicode NFKD-decomposition and combining-mark-stripping steps of name
  normalisation are modelled as the identity: the modelled character domain
  is restricted to characters that NFKD leaves unchanged and that are not
  combining marks (in particular, the whole ASCII range).  Likewise
  `str.lower` is modelled on the basic-latin range (`Char.toLower`), and the
  Python regex classes `\w`, `\s` are modelled by their ASCII meaning.
-/

/-- The ASCII characters matched by Python's `\s` class (and stripped by
`str.strip()`): space, tab, newline, carriage return, vertical tab, form
feed. -/
def isWS (c : Char) : Bool :=
  c = ' ' || c = Char.ofNat 9 || c = Char.ofNat 10 || c = Char.ofNat 13 ||
  c = Char.ofNat 11 || c = Char.ofNat 12

/-- The characters matched by Python's `\w` class, ASCII part:
letters, digits and underscore. -/
def isWordChar (c : Char) : Bool :=
  c.isAlphanum || c = '_'

/-- The apostrophe character (written via its code point to keep source
quoting unambiguous). -/
def apos : Char := Char.ofNat 39

/-- U+2019 right single quotation mark, replaced by an apostrophe in
`norm_name` of `build_pbp_player_actions_table.py`. -/
def rsquo : Char := Char.ofNat 8217

/-- Python `str.strip()`: drop whitespace from both ends. -/
def pyStrip (l : List Char) : List Char :=
  ((l.dropWhile isWS).reverse.dropWhile isWS).reverse

/-- Python `re.sub(r"\s+", " ", s)`: replace every maximal run of whitespace
by a single space.  (Each run is replaced at its last character; the result
is the same list.) -/
def collapseWS : List Char → List Char
  | [] => []
  | [c] => if isWS c then [' '] else [c]
  | c :: d :: rest =>
    if isWS c then
      if isWS d then collapseWS (d :: rest) else ' ' :: collapseWS (d :: rest)
    else c :: collapseWS (d :: rest)

/-- `s.lower().replace("’", "'")` from
`build_pbp_player_actions_table.norm_name`, per character.  `str.lower` is
modelled on the basic-latin range. -/
def lowerRepl (c : Char) : Char :=
  let c2 := Char.toLower c
  if c2 = rsquo then apos else c2

/-- The character class kept by `re.sub(r"[^\w\s'-]", "", s)`:
word characters, whitespace, apostrophe and hyphen. -/
def keepChar (c : Char) : Bool :=
  isWordChar c || isWS c || c = apos || c = '-'

namespace BuildActions

/-!  Model of `src/tools/build_pbp_player_actions_table.py`. -/

/-- The alternatives of `SUFFIX_RE = re.compile(r"\b(jr|sr|ii|iii|iv|v)\b\.?$",
re.IGNORECASE)`. -/
def suffixTokens : List (List Char) :=
  ["jr".data, "sr".data, "ii".data, "iii".data, "iv".data, "v".data]

/-- Does `s` (the remainder of the subject string from some position to its
end) match `(jr|sr|ii|iii|iv|v)\b\.?$` case-insensitively?  Since every
token ends in a word character, the trailing `\b` holds exactly when the
token is followed by the optional dot or the end of the string. -/
def isSuffixRemainder (s : List Char) : Bool :=
  let sl := s.map Char.toLower
  suffixTokens.any (fun t => sl = t || sl = t ++ ".".data)

/-- Does `SUFFIX_RE` match the subject `s` starting at position `p`?  The
leading `\b` requires position 0 or a non-word character just before `p`
(the token itself starts with a word character). -/
def suffixMatchAt (s : List Char) (p : Nat) : Bool :=
  (decide (p = 0) || !isWordChar (s.getD (p - 1) ' ')) && isSuffixRemainder (s.drop p)

/-- Does `SUFFIX_RE` match anywhere in `s` (i.e. does `s` end in a
generational suffix token preceded by a word boundary)? -/
def hasTrailingSuffix (s : List Char) : Bool :=
  (List.range s.length).any (fun p => suffixMatchAt s p)

/-- `SUFFIX_RE.sub("", s)`: remove the leftmost (hence unique-endpoint)
match, which always extends to the end of the string. -/
def suffixSub (s : List Char) : List Char :=
  match (List.range s.length).find? (fun p => suffixMatchAt s p) with
  | some p => s.take p
  | none => s

/-- `norm_name` of `build_pbp_player_actions_table.py` (lines 16-27):
strip, NFKD-decompose and drop combining marks (identity on the modelled
domain), lowercase and fold U+2019 to an apostrophe, drop characters outside
`[\w\s'-]`, collapse whitespace, strip one trailing generational suffix
token, collapse again. -/
def norm_name (s : List Char) : List Char :=
  let s1 := pyStrip s
  let s2 := s1.map lowerRepl
  let s3 := s2.filter keepChar
  let s4 := pyStrip (collapseWS s3)
  let s5 := pyStrip (suffixSub s4)
  pyStrip (collapseWS s5)

end BuildActions

namespace CoreParse

/-!  Model of `src/tools/parse_phase4_5_core_player_actions.py`. -/

/-- `norm_name` of `parse_phase4_5_core_player_actions.py` (lines 14-25):
same pipeline but with no U+2019 replacement and no suffix stripping. -/
def norm_name (s : List Char) : List Char :=
  let s1 := pyStrip s
  let s2 := s1.map Char.toLower
  let s3 := s2.filter keepChar
  pyStrip (collapseWS s3)

end CoreParse

/-- One roster-index entry sharing a normalised name key:
`(playerId, teamId, displayName)` as built by `build_name_lookup` /
`build_player_lookup`. -/
structure Candidate where
  pid : String
  tid : String
  displayName : String
deriving DecidableEq

/-- The name-key lookup table (`lut`): association list from normalised name
to the list of candidates sharing it, modelling the Python dict. -/
def Lut := List (List Char × List Candidate)

/-- `lut.get(n, [])`. -/
def lutGet (lut : Lut) (k : List Char) : List Candidate :=
  (List.lookup k lut).getD []

/-- The alias table: normalised raw name → normalised canonical name. -/
def AliasMap := List (List Char × List Char)

/-- `alias_map.get(n, n)`. -/
def aliasGet (m : AliasMap) (n : List Char) : List Char :=
  (List.lookup n m).getD n

namespace BuildActions

/-- `resolve_player_id` of `build_pbp_player_actions_table.py` (lines
68-81): normalise, apply the alias substitution, look up the candidate
list; zero candidates → `None`; one → its id; several → the first whose
team equals the preferred-team hint, else `None`.  A falsy hint (Python
`None` or `""`) is modelled as `none`. -/
def resolve_player_id (raw_name : List Char) (lut : Lut) (alias_map : AliasMap)
    (preferred_team : Option String) : Option String :=
  let n := aliasGet alias_map (norm_name raw_name)
  let cands := lutGet lut n
  match cands, preferred_team with
  | [], _ => none
  | [c], _ => some c.pid
  | _ :: _ :: _, some t => (cands.find? (fun c => c.tid == t)).map (fun c => c.pid)
  | _ :: _ :: _, none => none

end BuildActions

namespace CoreParse

/-- The diagnostic `problem` values recorded by `resolve_name_to_playerId`
(the `ctx`/`role` metadata of an issue row is not modelled). -/
inductive Problem where
  | empty_name : Problem
  | name_not_found : Problem
  | ambiguous_name : Nat → Problem
  | could_not_parse_turnover : Problem
deriving DecidableEq

/-- `resolve_name_to_playerId` of `parse_phase4_5_core_player_actions.py`
(lines 50-84).  Returns the resolved id together with the issue rows it
appends: empty key or unknown key → `none` plus an issue; a unique
candidate → its id; several candidates → the first on the preferred team
if the hint matches, otherwise the FIRST candidate together with an
`ambiguous_name` issue (the source comment: "fallback: take first
deterministically but log ambiguity"). -/
def resolve_name_to_playerId (raw_name : List Char) (name_lut : Lut)
    (preferred_team : Option String) : Option String × List Problem :=
  let n := norm_name raw_name
  if n = [] then (none, [.empty_name])
  else
    match lutGet name_lut n, preferred_team with
    | [], _ => (none, [.name_not_found])
    | [c], _ => (some c.pid, [])
    | c :: c2 :: rest, some t =>
      match (c :: c2 :: rest).find? (fun x => x.tid == t) with
      | some x => (some x.pid, [])
      | none => (some c.pid, [.ambiguous_name (c :: c2 :: rest).length])
    | c :: c2 :: rest, none => (some c.pid, [.ambiguous_name (c :: c2 :: rest).length])

end CoreParse

/-- All-digits decimal parse, modelling Python `int()` on the canonical
digit strings that occur in clock fields (sign/whitespace forms are out of
the modelled domain). -/
def parseNatDigits (l : List Char) : Option Nat :=
  if l ≠ [] && l.all Char.isDigit then
    some (l.foldl (fun a c => a * 10 + (c.toNat - 48)) 0)
  else none

namespace Phase4

/-!  Model of `src/tools/build_phase4_from_pbp_tables.py`. -/

/-- `clock_to_sec` (lines 9-16): `None` for a missing value; split `"MM:SS"`
on `":"` into exactly two integer parts, else `None`. -/
def clock_to_sec (clock : Option (List Char)) : Option Int :=
  match clock with
  | none => none
  | some c =>
    match c.splitOn ':' with
    | [m, s] =>
      match parseNatDigits m, parseNatDigits s with
      | some mm, some ss => some ((mm : Int) * 60 + ss)
      | _, _ => none
    | _ => none

/-- `period_len_sec` (lines 19-20): 600 seconds for periods 1-4, 300 for
anything else (overtime periods, and also a period number 0). -/
def period_len_sec (p : Nat) : Int :=
  if p = 1 ∨ p = 2 ∨ p = 3 ∨ p = 4 then 600 else 300

/-- `sum(period_len_sec(q) for q in range(1, period_number))`. -/
def base_elapsed (p : Nat) : Int :=
  ((List.range p).drop 1).foldl (fun a q => a + period_len_sec q) 0

/-- `game_time_elapsed_sec` (lines 23-30): elapsed game time from period
number and remaining clock, using fixed period lengths. -/
def game_time_elapsed_sec (p : Nat) (clock : Option (List Char)) : Option Int :=
  (clock_to_sec clock).map (fun rem => base_elapsed p + (period_len_sec p - rem))

/-- `is_clutch` of `build_phase4_from_pbp_tables.py` (lines 33-42): only in
period 4, with a parsable clock and both scores present, flag 1 when the
remaining clock is at most 300 seconds AND the absolute score margin is at
most 5. -/
def is_clutch (p : Int) (clock : Option (List Char)) (hp ap : Option Int) : Int :=
  if p ≠ 4 then 0
  else
    match clock_to_sec clock with
    | none => 0
    | some rem =>
      match hp, ap with
      | some h, some a => if rem ≤ 300 ∧ |h - a| ≤ 5 then 1 else 0
      | _, _ => 0

end Phase4

namespace ContextSplits

/-!  Model of `src/tools/build_phase4_5_player_context_splits.py`. -/

/-- `is_clutch` of `build_phase4_5_player_context_splits.py` (lines 10-19):
`(period == 4 and clockSeconds <= 120) or period >= 5`; `False` when either
input is missing / non-numeric. -/
def is_clutch (period_number clock_seconds : Option Int) : Bool :=
  match period_number, clock_seconds with
  | some p, some cs => (p == 4 && cs ≤ 120) || p ≥ 5
  | _, _ => false

/-- `margin_bucket` (lines 21-31). -/
def margin_bucket (m : Option ℚ) : String :=
  match m with
  | none => "unknown"
  | some m =>
    if m ≤ -10 then "trail_10plus"
    else if m ≤ -4 then "trail_4_9"
    else if m < 0 then "trail_1_3"
    else if m = 0 then "tied"
    else if m < 4 then "lead_1_3"
    else if m < 10 then "lead_4_9"
    else "lead_10plus"

/-- `np.where(~m_team.isna(), m_team, m_home)` (line 53): prefer the
team-perspective margin, fall back to the home margin. -/
def margin_used (m_team m_home : Option ℚ) : Option ℚ :=
  match m_team with
  | some v => some v
  | none => m_home

/-- `df["bucket"] = df["margin_used"].apply(margin_bucket)` for one row. -/
def bucket_of_row (m_team m_home : Option ℚ) : String :=
  margin_bucket (margin_used m_team m_home)

end ContextSplits

namespace Spatial

/-!  Model of `src/tools/build_phase4_5_player_spatial_profile.py`. -/

/-- `zone_from_xy` (lines 11-31).  The source compares
`math.sqrt(hx*hx + hy*hy)` with the non-negative thresholds 60, 140, 240;
since both sides are non-negative this is equivalent to comparing
`hx*hx + hy*hy` with their squares, which keeps the definition executable
over `ℚ`. -/
def zone_from_xy (hx hy : ℚ) : String :=
  let dist2 := hx * hx + hy * hy
  let is_three : Prop := dist2 ≥ 240 * 240
  if dist2 ≤ 60 * 60 then "rim"
  else if dist2 ≤ 140 * 140 then "paint"
  else if ¬ is_three then "mid"
  else if |hx| ≥ 250 then "corner3"
  else "ab3"

end Spatial

namespace BuildActions

/-- `normalize_xy_to_hoop` of `build_pbp_player_actions_table.py` (lines
98-124): `(None, None)` when a coordinate does not parse as a number; else
shift x by the horizontal midpoint 564, mirror y about 300 (fold the far
half, `y > 300`, onto the near half via `600 - y`), and take the absolute
value of the result. -/
def normalize_xy_to_hoop (x y : Option ℚ) : Option ℚ × Option ℚ :=
  match x, y with
  | some x, some y =>
    let hx := x - 564
    let hy := if y > 300 then 600 - y else y
    let hy2 := if hy < 0 then |hy| else hy
    (some hx, some hy2)
  | _, _ => (none, none)

end BuildActions

namespace Phase4

/-- Which side a lineup belongs to. -/
inductive Side where
  | home : Side
  | away : Side
deriving DecidableEq

/-- `normalize_lineup` (lines 45-48): the non-null player ids, as strings,
sorted ascending (the order-independent lineup key). -/
def normalize_lineup (ids : List (Option String)) : List String :=
  (ids.filterMap id).mergeSort (fun a b => a ≤ b)

/-- One event row as consumed by `emit_stints`, after the time axis,
forward-filled lineup column and scores have been attached: `t_elapsed`,
the side's forward-filled `normalize_lineup` value, and the two scores.
Missing values are `none`. -/
structure Ev where
  t : Option Int
  lineup : Option (List String)
  hp : Option Int
  ap : Option Int
deriving DecidableEq

/-- `sub = ev.dropna(subset=[lineup_col, "t_elapsed"])` (line 133). -/
def subEvents (evs : List Ev) : List Ev :=
  evs.filter (fun e => e.lineup.isSome && e.t.isSome)

/-- Prepend an event to the first run of a run list (helper for
`groupRuns`). -/
def consRun (e : Ev) : List (Ev × List Ev) → List (Ev × List Ev)
  | g :: gs => (e, g.1 :: g.2) :: gs
  | [] => [(e, [])]

/-- Group the event list into maximal runs of consecutive events with equal
lineup value.  This is `_change = lineup.ne(lineup.shift(1))`,
`_stint = _change.cumsum()`, `groupby("_stint")` (lines 137-140): the
cumulative sum is constant exactly on such runs.  Each run is returned as
(first event, rest of the run). -/
def groupRuns : List Ev → List (Ev × List Ev)
  | [] => []
  | [e] => [(e, [])]
  | e :: e2 :: rest =>
    if e.lineup = e2.lineup then consRun e (groupRuns (e2 :: rest))
    else (e, []) :: groupRuns (e2 :: rest)

/-- One output stint row (the per-game constants `season_year`, `game_id`
and the five exploded lineup columns are not modelled; the lineup key is
kept whole). -/
structure StintRow where
  team_id : String
  side : Side
  stint_id : Nat
  start_t : Int
  end_t : Int
  duration_s : Int
  points_for : Option Int
  points_against : Option Int
  lineup : List String
deriving DecidableEq

/-- The events of a run, first followed by rest. -/
def runEvents (g : Ev × List Ev) : List Ev :=
  g.1 :: g.2

/-- Build one stint row from a run (lines 140-178): `start_t`/`end_t` are
the min/max of `t_elapsed` over the run, duration is clamped at 0;
`points_for`/`points_against` are the own/opponent score deltas between the
run's FIRST and LAST event, `None` unless all four scores are present. -/
def mkRow (side : Side) (team_id : String) (stint_id : Nat) (g : Ev × List Ev) : StintRow :=
  let es := runEvents g
  let ts := es.filterMap (fun e => e.t)
  let start_t := ts.foldl min (ts.headD 0)
  let end_t := ts.foldl max (ts.headD 0)
  let first := g.1
  let last := g.2.getLastD g.1
  let pfpa : Option Int × Option Int :=
    match first.hp, first.ap, last.hp, last.ap with
    | some sh, some sa, some eh, some ea =>
      match side with
      | .home => (some (eh - sh), some (ea - sa))
      | .away => (some (ea - sa), some (eh - sh))
    | _, _, _, _ => (none, none)
  { team_id := team_id
    side := side
    stint_id := stint_id
    start_t := start_t
    end_t := end_t
    duration_s := max 0 (end_t - start_t)
    points_for := pfpa.1
    points_against := pfpa.2
    lineup := (first.lineup).getD [] }

/-- `emit_stints` (lines 129-178): nothing for a missing team id; else drop
events without a lineup or time, split into runs of unchanged lineup, and
emit one row per run with stint ids 1, 2, ... in order. -/
def emit_stints (side : Side) (team_id : Option String) (evs : List Ev) : List StintRow :=
  match team_id with
  | none => []
  | some tid =>
    ((groupRuns (subEvents evs)).enum).map (fun p => mkRow side tid (p.1 + 1) p.2)

/-- Own-side score of an event (0 as a placeholder for a missing score; the
theorems only use it where the score is present). -/
def scoreOf (side : Side) (e : Ev) : Int :=
  match side with
  | .home => e.hp.getD 0
  | .away => e.ap.getD 0

/-- The last event of a run. -/
def lastRunEvent (g : Ev × List Ev) : Ev :=
  g.2.getLastD g.1

/-- The own/opponent score delta a run contributes as `points_for`:
own-side score of the run's last event minus that of its first. -/
def pfVal (side : Side) (g : Ev × List Ev) : Int :=
  scoreOf side (lastRunEvent g) - scoreOf side g.1

/-- The score jumps across stint boundaries: for each pair of adjacent runs,
the own-side score of the later run's first event minus that of the earlier
run's last event. -/
def gapSum (side : Side) : List (Ev × List Ev) → Int
  | g1 :: g2 :: gs => (scoreOf side g2.1 - scoreOf side (lastRunEvent g1)) + gapSum side (g2 :: gs)
  | _ => 0

end Phase4

/-- Newline, the one character not matched by `.` without `re.DOTALL`. -/
def LF : Char := Char.ofNat 10

/-- No newline in the span matched by `.+?` / `.*`. -/
def noLF (l : List Char) : Bool := l.all (fun c => c ≠ LF)

/-- Case-insensitive literal matcher (the regexes are compiled with
`re.IGNORECASE`): consume `pat` from the front of the input and return the
rest, or `none`. -/
def matchLitCI : List Char → List Char → Option (List Char)
  | [], rest => some rest
  | _ :: _, [] => none
  | p :: ps, c :: cs => if Char.toLower c == Char.toLower p then matchLitCI ps cs else none

/-- `\s+` (greedy): at least one whitespace character, then all following
whitespace.  Greediness is faithful here because every literal that follows
a `\s+` in the modelled patterns starts with a non-whitespace character. -/
def ws1Plus : List Char → Option (List Char)
  | c :: cs => if isWS c then some (cs.dropWhile isWS) else none
  | [] => none

/-- `\b` at a point whose preceding character is a word character: holds at
end of input or before a non-word character. -/
def wordBoundaryAfter : List Char → Bool
  | [] => true
  | c :: _ => !isWordChar c

/-- Plain (case-sensitive) list-of-chars substring test, modelling Python's
`needle in hay`; callers lowercase their arguments where the source does. -/
def startsWithList : List Char → List Char → Bool
  | [], _ => true
  | _ :: _, [] => false
  | n :: ns, h :: hs => n == h && startsWithList ns hs

/-- `needle in hay` for strings. -/
def containsSub (needle hay : List Char) : Bool :=
  (List.range (hay.length + 1)).any (fun i => startsWithList needle (hay.drop i))

namespace BuildActions

/-- The verb alternative captured by the shot / free-throw patterns. -/
inductive Verb where
  | makes : Verb
  | misses : Verb
deriving DecidableEq

/-- The shot-kind alternative of `RE_SHOT`. -/
inductive ShotKind where
  | two : ShotKind
  | three : ShotKind
deriving DecidableEq

/-- The rebound-kind alternative of `RE_REB`. -/
inductive RebKind where
  | offensive : RebKind
  | defensive : RebKind
deriving DecidableEq

/-- `(makes|misses)`: the two alternatives start with distinct characters
after `m`, so at most one can match. -/
def matchVerb (l : List Char) : Option (Verb × List Char) :=
  match matchLitCI "makes".data l with
  | some r => some (Verb.makes, r)
  | none =>
    match matchLitCI "misses".data l with
    | some r => some (Verb.misses, r)
    | none => none

/-- The part of `RE_SHOT = ^(.+?)\s+(makes|misses)\s+(two point|three point)\b`
after the lazy group. -/
def shotTail (l : List Char) : Option (Verb × ShotKind) :=
  (ws1Plus l).bind fun r1 =>
  (matchVerb r1).bind fun vr =>
  (ws1Plus vr.2).bind fun r3 =>
  match matchLitCI "two point".data r3 with
  | some r4 => if wordBoundaryAfter r4 then some (vr.1, ShotKind.two) else none
  | none =>
    match matchLitCI "three point".data r3 with
    | some r4 => if wordBoundaryAfter r4 then some (vr.1, ShotKind.three) else none
    | none => none

/-- `RE_SHOT.search(desc)` (line 130): anchored at the start by `^`; the
lazy `(.+?)` takes the smallest non-empty newline-free prefix whose
remainder matches the tail.  Returns (group 1, verb, kind). -/
def re_shot (desc : List Char) : Option (List Char × Verb × ShotKind) :=
  match (List.range (desc.length + 1)).find? (fun i =>
      decide (1 ≤ i) && noLF (desc.take i) && (shotTail (desc.drop i)).isSome) with
  | some i => (shotTail (desc.drop i)).map (fun vk => (desc.take i, vk))
  | none => none

/-- The closing part `\s+assists\)` of `RE_ASSIST`. -/
def assistTail (l : List Char) : Bool :=
  ((ws1Plus l).bind (fun r => matchLitCI "assists)".data r)).isSome

/-- `RE_ASSIST = \((.+?)\s+assists\)` matched at one position: an opening
parenthesis, then the smallest non-empty newline-free content whose
remainder matches `\s+assists\)`. -/
def re_assist_at : List Char → Option (List Char)
  | [] => none
  | c :: rest =>
    if c = '(' then
      match (List.range (rest.length + 1)).find? (fun k =>
          decide (1 ≤ k) && noLF (rest.take k) && assistTail (rest.drop k)) with
      | some k => some (rest.take k)
      | none => none
    else none

/-- `RE_ASSIST.search(desc)` (line 132): leftmost starting position wins. -/
def re_assist (desc : List Char) : Option (List Char) :=
  match (List.range (desc.length + 1)).find? (fun j => (re_assist_at (desc.drop j)).isSome) with
  | some j => re_assist_at (desc.drop j)
  | none => none

/-- `.*free throw\b`: some newline-free gap, then the literal, then a word
boundary. -/
def ftRest (l : List Char) : Bool :=
  (List.range (l.length + 1)).any (fun j =>
    noLF (l.take j) &&
    (match matchLitCI "free throw".data (l.drop j) with
     | some r => wordBoundaryAfter r
     | none => false))

/-- The tail `\s+(makes|misses)\s+.*free throw\b` of `RE_FT` (line 131). -/
def ftTail (l : List Char) : Option Verb :=
  (ws1Plus l).bind fun r1 =>
  (matchVerb r1).bind fun vr =>
  (ws1Plus vr.2).bind fun r3 =>
  if ftRest r3 then some vr.1 else none

/-- `RE_FT.search(desc)`: lazy leading group as in `re_shot`. -/
def re_ft (desc : List Char) : Option (List Char × Verb) :=
  match (List.range (desc.length + 1)).find? (fun i =>
      decide (1 ≤ i) && noLF (desc.take i) && (ftTail (desc.drop i)).isSome) with
  | some i => (ftTail (desc.drop i)).map (fun v => (desc.take i, v))
  | none => none

/-- The looser fallback `re.match(r"^(.+?)\s+(makes|misses)\b", desc)`
(line 322). -/
def re_makes_misses (desc : List Char) : Option (List Char × Verb) :=
  match (List.range (desc.length + 1)).find? (fun i =>
      decide (1 ≤ i) && noLF (desc.take i) &&
      (match (ws1Plus (desc.drop i)).bind matchVerb with
       | some vr => wordBoundaryAfter vr.2
       | none => false)) with
  | some i => ((ws1Plus (desc.drop i)).bind matchVerb).map (fun vr => (desc.take i, vr.1))
  | none => none

/-- The tail `\s+(offensive|defensive)\s+rebound\b` of `RE_REB` (line 134). -/
def rebTail (l : List Char) : Option RebKind :=
  (ws1Plus l).bind fun r1 =>
  (match matchLitCI "offensive".data r1 with
   | some r => some (RebKind.offensive, r)
   | none =>
     match matchLitCI "defensive".data r1 with
     | some r => some (RebKind.defensive, r)
     | none => none).bind fun kr =>
  (ws1Plus kr.2).bind fun r3 =>
  match matchLitCI "rebound".data r3 with
  | some r4 => if wordBoundaryAfter r4 then some kr.1 else none
  | none => none

/-- `RE_REB.search(desc)`. -/
def re_reb (desc : List Char) : Option (List Char × RebKind) :=
  match (List.range (desc.length + 1)).find? (fun i =>
      decide (1 ≤ i) && noLF (desc.take i) && (rebTail (desc.drop i)).isSome) with
  | some i => (rebTail (desc.drop i)).map (fun k => (desc.take i, k))
  | none => none

/-- The tail `\s+turnover\b` of `RE_TOV_A = ^(.+?)\s+turnover\b` (line 136). -/
def tovATail (l : List Char) : Bool :=
  match (ws1Plus l).bind (fun r => matchLitCI "turnover".data r) with
  | some r => wordBoundaryAfter r
  | none => false

/-- `RE_TOV_A.search(desc)`. -/
def re_tov_a (desc : List Char) : Option (List Char) :=
  match (List.range (desc.length + 1)).find? (fun i =>
      decide (1 ≤ i) && noLF (desc.take i) && tovATail (desc.drop i)) with
  | some i => some (desc.take i)
  | none => none

/-- `RE_TOV_B = turnover\s+by\s+(.+?)(?:\(|$)` matched at one position; the
lazy group grows until an opening parenthesis or the end of the string. -/
def tovBAt (l : List Char) : Option (List Char) :=
  (matchLitCI "turnover".data l).bind fun r1 =>
  (ws1Plus r1).bind fun r2 =>
  (matchLitCI "by".data r2).bind fun r3 =>
  (ws1Plus r3).bind fun r4 =>
  match (List.range (r4.length + 1)).find? (fun k =>
      decide (1 ≤ k) && noLF (r4.take k) &&
      (match r4.drop k with
       | [] => true
       | c :: _ => c = '(')) with
  | some k => some (r4.take k)
  | none => none

/-- `RE_TOV_B.search(desc)` (line 137): leftmost starting position wins. -/
def re_tov_b (desc : List Char) : Option (List Char) :=
  match (List.range (desc.length + 1)).find? (fun j => (tovBAt (desc.drop j)).isSome) with
  | some j => tovBAt (desc.drop j)
  | none => none

/-- `.*\bfoul\b`: a newline-free gap ending in a word boundary (the gap's
last character non-word, or the gap empty — then the preceding whitespace
run supplies the boundary), the literal, another boundary. -/
def foulLeadRest (l : List Char) : Bool :=
  (List.range (l.length + 1)).any (fun j =>
    noLF (l.take j) &&
    (decide (j = 0) || !isWordChar (l.getD (j - 1) ' ')) &&
    (match matchLitCI "foul".data (l.drop j) with
     | some r => wordBoundaryAfter r
     | none => false))

/-- `RE_FOUL_LEAD = ^(.+?)\s+.*\bfoul\b` (line 143).  Note the lazy group
grabs the smallest workable prefix, typically the first token only. -/
def re_foul_lead (desc : List Char) : Option (List Char) :=
  match (List.range (desc.length + 1)).find? (fun i =>
      decide (1 ≤ i) && noLF (desc.take i) &&
      (match ws1Plus (desc.drop i) with
       | some r => foulLeadRest r
       | none => false)) with
  | some i => some (desc.take i)
  | none => none

/-- `RE_PARENS.findall(desc)` with `\(([^()]*)\)` (line 144): scan left to
right; at each `(` take the paren-free run that follows; if it is closed by
`)` record it and continue after the `)`, otherwise move one character on.
The fuel starts at the list length, which the scan never exhausts since
every step drops at least one character. -/
def parenChunksF : Nat → List Char → List (List Char)
  | 0, _ => []
  | _, [] => []
  | fuel + 1, c :: rest =>
    if c = '(' then
      let content := rest.takeWhile (fun d => d ≠ '(' && d ≠ ')')
      match rest.drop content.length with
      | d :: tail =>
        if d = ')' then content :: parenChunksF fuel tail else parenChunksF fuel rest
      | [] => parenChunksF fuel rest
    else parenChunksF fuel rest

/-- `RE_PARENS.findall(desc)`. -/
def parenChunks (l : List Char) : List (List Char) :=
  parenChunksF l.length l

/-- The tail `\s+draws?\s+the\s+foul\b` of `RE_DRAWS` (line 145).  The
optional `s?` is deterministic: consuming an `s` is forced exactly when one
follows, since `\s+` cannot match it. -/
def drawsTail (l : List Char) : Bool :=
  match ws1Plus l with
  | none => false
  | some r =>
    match matchLitCI "draw".data r with
    | none => false
    | some r2 =>
      let r3 := match r2 with
        | c :: cs => if Char.toLower c = 's' then cs else r2
        | [] => r2
      match (ws1Plus r3).bind (fun r4 => matchLitCI "the".data r4) with
      | none => false
      | some r5 =>
        match (ws1Plus r5).bind (fun r6 => matchLitCI "foul".data r6) with
        | some r7 => wordBoundaryAfter r7
        | none => false

/-- `RE_DRAWS.search(ch)` with `^(.+?)\s+draws?\s+the\s+foul\b`. -/
def re_draws (chunk : List Char) : Option (List Char) :=
  match (List.range (chunk.length + 1)).find? (fun i =>
      decide (1 ≤ i) && noLF (chunk.take i) && drawsTail (chunk.drop i)) with
  | some i => some (chunk.take i)
  | none => none

/-- One output row of the actions table.  Only the action-identifying
fields are modelled; the per-event context columns (clock, scores, margins,
coordinates, description) are carried through unchanged by `add_row` and
are covered by the dedicated context definitions. -/
structure Row where
  player_id : String
  team_id : String
  action : String
  result : String
  points_value : Option Nat
deriving DecidableEq

/-- One issue row (`bucket` and the raw name that failed to resolve). -/
structure Issue where
  bucket : String
  raw_name : List Char
deriving DecidableEq

/-- Python `preferred_team or poss_team` followed by `str(...) if not None
else ""` inside `add_row`. -/
def teamOr (a b : Option String) : String :=
  a.getD (b.getD "")

/-- The shot branch of `main` (lines 272-312): `none` when `RE_SHOT` does
not match (the event falls through to the later branches); otherwise the
rows and issues the branch appends.  On a made shot with an embedded
assists clause the passer is resolved and credited too. -/
def shot_branch (desc : List Char) (lut : Lut) (alias_map : AliasMap)
    (preferred_team poss_team : Option String) : Option (List Row × List Issue) :=
  match re_shot desc with
  | none => none
  | some (g1, verb, kind) =>
    let shooter := pyStrip g1
    some (
      match resolve_player_id shooter lut alias_map preferred_team with
      | none => ([], [{bucket := "shot", raw_name := shooter}])
      | some pid =>
        let row1 : Row :=
          { player_id := pid
            team_id := teamOr preferred_team poss_team
            action := if kind = ShotKind.three then "three_pa" else "two_pa"
            result := if verb = Verb.makes then "made" else "missed"
            points_value := some (if kind = ShotKind.three then 3 else 2) }
        if verb = Verb.makes then
          match re_assist desc with
          | some g =>
            let passer := pyStrip g
            match resolve_player_id passer lut alias_map preferred_team with
            | some apid =>
              ([row1,
                { player_id := apid
                  team_id := teamOr preferred_team poss_team
                  action := "assist"
                  result := "credited"
                  points_value := none }], [])
            | none => ([row1], [{bucket := "assist_name", raw_name := passer}])
          | none => ([row1], [])
        else ([row1], []))

/-- The free-throw branch of `main` (lines 314-341), entered when the gate
(event type or description mentions a free throw) holds: primary `RE_FT`
pattern, then the looser `makes|misses` fallback still guarded by the
`"free throw" in desc.lower()` check; no row and no issue when neither
applies. -/
def ft_branch (desc : List Char) (lut : Lut) (alias_map : AliasMap)
    (preferred_team poss_team : Option String) : List Row × List Issue :=
  let shooterVerb : Option (List Char × Verb) :=
    match re_ft desc with
    | some sv => some sv
    | none =>
      match re_makes_misses desc with
      | some sv =>
        if containsSub "free throw".data (desc.map Char.toLower) then some sv else none
      | none => none
  match shooterVerb with
  | none => ([], [])
  | some (g1, verb) =>
    let shooter := pyStrip g1
    match resolve_player_id shooter lut alias_map preferred_team with
    | none => ([], [{bucket := "ft", raw_name := shooter}])
    | some pid =>
      ([{ player_id := pid
          team_id := teamOr preferred_team poss_team
          action := "fta"
          result := if verb = Verb.makes then "made" else "missed"
          points_value := some 1 }], [])

/-- The rebound branch (lines 343-361): `none` when `RE_REB` does not
match. -/
def reb_branch (desc : List Char) (lut : Lut) (alias_map : AliasMap)
    (preferred_team poss_team : Option String) : Option (List Row × List Issue) :=
  match re_reb desc with
  | none => none
  | some (g1, kind) =>
    let name := pyStrip g1
    some (
      match resolve_player_id name lut alias_map preferred_team with
      | none => ([], [{bucket := "rebound", raw_name := name}])
      | some pid =>
        ([{ player_id := pid
            team_id := teamOr preferred_team poss_team
            action := if kind = RebKind.offensive then "orb" else "drb"
            result := "secured"
            points_value := none }], []))

/-- The turnover branch (lines 363-388): `RE_TOV_A` first, `RE_TOV_B`
second; when neither yields a name the event is dropped with NO issue row;
a name that fails to resolve is logged. -/
def tov_branch (desc : List Char) (lut : Lut) (alias_map : AliasMap)
    (preferred_team poss_team : Option String) : List Row × List Issue :=
  let name? : Option (List Char) :=
    match re_tov_a desc with
    | some g => some (pyStrip g)
    | none => (re_tov_b desc).map pyStrip
  match name? with
  | none => ([], [])
  | some name =>
    match resolve_player_id name lut alias_map preferred_team with
    | none => ([], [{bucket := "turnover", raw_name := name}])
    | some pid =>
      ([{ player_id := pid
          team_id := teamOr preferred_team poss_team
          action := "turnover"
          result := "committed"
          points_value := none }], [])

/-- The foul branch (lines 390-424): fouler from the leading pattern,
drawer from the LAST parenthesised clause containing "draw" and "foul"
whose stripped text matches `RE_DRAWS`; either, both or neither may be
present, each resolved and emitted (or logged) independently. -/
def foul_branch (desc : List Char) (lut : Lut) (alias_map : AliasMap)
    (preferred_team poss_team : Option String) : List Row × List Issue :=
  let fouler? := (re_foul_lead desc).map pyStrip
  let drawer? := (parenChunks desc).reverse.findSome? (fun ch =>
    if containsSub "draw".data (ch.map Char.toLower) &&
       containsSub "foul".data (ch.map Char.toLower) then
      (re_draws (pyStrip ch)).map pyStrip
    else none)
  let fres : List Row × List Issue :=
    match fouler? with
    | none => ([], [])
    | some f =>
      match resolve_player_id f lut alias_map preferred_team with
      | some pid =>
        ([{ player_id := pid, team_id := teamOr preferred_team poss_team,
            action := "foul_committed", result := "called", points_value := none }], [])
      | none => ([], [{bucket := "foul_committed", raw_name := f}])
  let dres : List Row × List Issue :=
    match drawer? with
    | none => ([], [])
    | some d =>
      match resolve_player_id d lut alias_map preferred_team with
      | some pid =>
        ([{ player_id := pid, team_id := teamOr preferred_team poss_team,
            action := "foul_drawn", result := "drawn", points_value := none }], [])
      | none => ([], [{bucket := "foul_drawn", raw_name := d}])
  (fres.1 ++ dres.1, fres.2 ++ dres.2)

/-- The per-event dispatch of `main` (lines 252-424): the shot branch
claims the event whenever `RE_SHOT` matches; otherwise the free-throw gate,
the rebound pattern, the turnover gate and the foul gate are tried in
source order; an event matching no branch contributes nothing.  `et` is the
already-lowercased event type. -/
def classify_event (et desc : List Char) (lut : Lut) (alias_map : AliasMap)
    (preferred_team poss_team : Option String) : List Row × List Issue :=
  match shot_branch desc lut alias_map preferred_team poss_team with
  | some res => res
  | none =>
    if containsSub "freethrow".data et || containsSub "free_throw".data et ||
       containsSub "free throw".data (desc.map Char.toLower) then
      ft_branch desc lut alias_map preferred_team poss_team
    else
      match reb_branch desc lut alias_map preferred_team poss_team with
      | some res => res
      | none =>
        if containsSub "turnover".data et ||
           containsSub "turnover".data (desc.map Char.toLower) then
          tov_branch desc lut alias_map preferred_team poss_team
        else if containsSub "foul".data et then
          foul_branch desc lut alias_map preferred_team poss_team
        else ([], [])

end BuildActions

namespace CoreParse

/-- The tail `\s+turnover` of `RE_TOV = ^(.+?)\s+turnover` of
`parse_phase4_5_core_player_actions.py` (line 98) — note: no second
pattern, and no trailing `\b`. -/
def tovTail (l : List Char) : Bool :=
  ((ws1Plus l).bind (fun r => matchLitCI "turnover".data r)).isSome

/-- `RE_TOV.search(desc)`. -/
def re_tov (desc : List Char) : Option (List Char) :=
  match (List.range (desc.length + 1)).find? (fun i =>
      decide (1 ≤ i) && noLF (desc.take i) && tovTail (desc.drop i)) with
  | some i => some (desc.take i)
  | none => none

/-- One accumulator row appended by `add_stat` (the increment is always 1
and `season_year`/`game_id` are ambient constants, so only the keyed fields
are modelled). -/
structure StatRow where
  player_id : String
  team_id : String
  stat : String
deriving DecidableEq

/-- The class `[^a-z0-9]` of the turnover-subtype sanitiser (applied to the
lowercased subtype). -/
def isBadTovChar (c : Char) : Bool :=
  !(c.isLower || c.isDigit)

/-- `re.sub(r"[^a-z0-9]+", "_", t)`: each maximal run of bad characters
becomes one underscore. -/
def collapseNonAlnum : List Char → List Char
  | [] => []
  | c :: rest =>
    let tail := collapseNonAlnum rest
    if isBadTovChar c then
      match rest with
      | d :: _ => if isBadTovChar d then tail else '_' :: tail
      | [] => ['_']
    else c :: tail

/-- `.strip('_')`. -/
def stripUnderscores (l : List Char) : List Char :=
  ((l.dropWhile (fun c => c = '_')).reverse.dropWhile (fun c => c = '_')).reverse

/-- The turnover branch of `main` (lines 265-286): ONLY `RE_TOV` is tried;
when it fails a `could_not_parse_turnover` issue is recorded and nothing is
emitted.  On success the name is resolved (issues from the resolver are
kept either way) and `tov`, an optional subtype stat and an optional
`clutch_tov` stat are appended. -/
def tov_branch (desc : List Char) (lut : Lut) (team_att team_poss : Option String)
    (turnover_type : List Char) (clutch : Bool) : List StatRow × List Problem :=
  match re_tov desc with
  | none => ([], [Problem.could_not_parse_turnover])
  | some g1 =>
    let p_name := pyStrip g1
    let preferred := match team_att with
      | some t => some t
      | none => team_poss
    let r := resolve_name_to_playerId p_name lut preferred
    match r.1 with
    | none => ([], r.2)
    | some pid =>
      let team := preferred.getD ""
      let t := turnover_type.map Char.toLower
      let subtype : List StatRow :=
        if containsSub "bad".data t && containsSub "pass".data t then
          [{player_id := pid, team_id := team, stat := "tov_bad_pass"}]
        else if containsSub "lost".data t && containsSub "ball".data t then
          [{player_id := pid, team_id := team, stat := "tov_lost_ball"}]
        else if t ≠ [] then
          [{player_id := pid, team_id := team,
            stat := String.mk ("tov_".data ++ stripUnderscores (collapseNonAlnum t))}]
        else []
      ({player_id := pid, team_id := team, stat := "tov"} ::
         subtype ++
         (if clutch then [{player_id := pid, team_id := team, stat := "clutch_tov"}] else []),
       r.2)

end CoreParse

/-!  Concrete instances used by counterexamples and witnesses. -/

/-- A roster in which the name key "jane doe" is shared by two players on
different teams. -/
def rosterTwoTeams : Lut :=
  [("jane doe".data, [⟨"P1", "AAA", "Jane Doe"⟩, ⟨"P2", "BBB", "Jane Doe"⟩])]

/-- A roster in which the name key "jane doe" is shared by two players on
the SAME team. -/
def rosterOneTeam : Lut :=
  [("jane doe".data, [⟨"P1", "AAA", "Jane Doe"⟩, ⟨"P2", "AAA", "Jane Doe"⟩])]

/-- A roster resolving "jane doe" uniquely. -/
def rosterJane : Lut :=
  [("jane doe".data, [⟨"P9", "SEA", "Jane Doe"⟩])]

/-- A roster resolving the three players of the shot-classification
examples uniquely. -/
def rosterDemo : Lut :=
  [("j ionescu".data, [⟨"P1", "NYL", "J Ionescu"⟩]),
   ("s diggins-smith".data, [⟨"P2", "SEA", "S Diggins-Smith"⟩]),
   ("a wilson".data, [⟨"P3", "LVA", "A Wilson"⟩])]

/-- Six temporally ordered events whose home lineup changes exactly once,
between events 3 and 4, with strictly increasing elapsed times 0, 10, ...,
50 (all in period 1, derivable from clocks 10:00, 9:50, ..., 9:10). -/
def evsSixDemo : List Phase4.Ev :=
  [⟨some 0, some ["a1", "a2", "a3", "a4", "a5"], some 0, some 0⟩,
   ⟨some 10, some ["a1", "a2", "a3", "a4", "a5"], some 0, some 0⟩,
   ⟨some 20, some ["a1", "a2", "a3", "a4", "a5"], some 0, some 0⟩,
   ⟨some 30, some ["a1", "a2", "a3", "a4", "a6"], some 0, some 0⟩,
   ⟨some 40, some ["a1", "a2", "a3", "a4", "a6"], some 0, some 0⟩,
   ⟨some 50, some ["a1", "a2", "a3", "a4", "a6"], some 0, some 0⟩]

/-- Three events with non-null, monotonic scores in which the home team
scores exactly at the lineup boundary: the score moves from 0 to 2 between
the last event of stint 1 and the first event of stint 2. -/
def evsThreeDemo : List Phase4.Ev :=
  [⟨some 0, some ["a1", "a2", "a3", "a4", "a5"], some 0, some 0⟩,
   ⟨some 10, some ["a1", "a2", "a3", "a4", "a5"], some 0, some 0⟩,
   ⟨some 20, some ["a1", "a2", "a3", "a4", "a6"], some 2, some 0⟩]

/-- Canonical shape of a normalised name: every character is kept by the
punctuation filter and fixed by lowercasing, every whitespace character is a
plain space, no two whitespace characters are adjacent, and the string
neither starts nor ends with whitespace.  `norm_name` always produces such
strings, and on them all its stages except the suffix strip act as the
identity. -/
def canonStr (l : List Char) : Prop :=
  (∀ c ∈ l, keepChar c = true ∧ lowerRepl c = c ∧ (isWS c = true → c = ' ')) ∧
  List.Chain' (fun a b => ¬(isWS a = true ∧ isWS b = true)) l ∧
  (∀ c ∈ l.head?, isWS c = false) ∧ (∀ c ∈ l.getLast?, isWS c = false)

/-!  ## Theorems -/

/-- C1 (counterexample): with two roster candidates for "jane doe" on
different teams and NO team hint, `resolve_name_to_playerId` does not fail
as `AMBIGUOUS`: it logs the ambiguity but returns the first candidate's id
(a list-position tie-break); and with two candidates on the SAME hinted
team, `resolve_player_id` likewise returns the first rather than failing. -/
theorem C1_counterexample :
    CoreParse.resolve_name_to_playerId "Jane Doe".data rosterTwoTeams none =
      (some "P1", [CoreParse.Problem.ambiguous_name 2]) ∧
    BuildActions.resolve_player_id "Jane Doe".data rosterOneTeam [] (some "AAA") =
      some "P1" := by
  decide

/-- C5 (counterexample): `norm_name` of the actions-table builder is NOT
idempotent: a name ending in two generational suffix tokens loses one token
per application ("John Doe II III" → "john doe ii" → "john doe"). -/
theorem C5_counterexample :
    BuildActions.norm_name (BuildActions.norm_name "John Doe II III".data) ≠
      BuildActions.norm_name "John Doe II III".data := by
  decide

/-- C7 (confirmed): on a roster resolving the named players uniquely,
"J Ionescu makes two point shot (S Diggins-Smith assists)" classifies into
exactly the made two-point attempt (points 2) plus the assist credit, and
"A Wilson misses three point jump shot" into exactly the missed three-point
attempt (points 3) with no assist action. -/
theorem C7_shot_classification :
    BuildActions.classify_event "twopointmade".data
        "J Ionescu makes two point shot (S Diggins-Smith assists)".data
        rosterDemo [] none none =
      ([{player_id := "P1", team_id := "", action := "two_pa", result := "made",
         points_value := some 2},
        {player_id := "P2", team_id := "", action := "assist", result := "credited",
         points_value := none}], []) ∧
    BuildActions.classify_event "threepointmiss".data
        "A Wilson misses three point jump shot".data rosterDemo [] none none =
      ([{player_id := "P3", team_id := "", action := "three_pa", result := "missed",
         points_value := some 3}], []) := by
  decide

/-- C9 (counterexample): on "turnover by Jane Doe" (extractable only by the
second pattern) the core-actions parser, which has no second pattern,
records a `could_not_parse_turnover` Issue row instead of trying
`"turnover by NAME"` and instead of dropping the event silently — while the
actions-table builder's second pattern does extract the name. -/
theorem C9_counterexample :
    CoreParse.tov_branch "turnover by Jane Doe".data rosterJane none none [] false =
      ([], [CoreParse.Problem.could_not_parse_turnover]) ∧
    BuildActions.re_tov_b "turnover by Jane Doe".data = some "Jane Doe".data := by
  decide

/-- C3 (counterexample): the two `is_clutch` implementations do not share
the fixed rule `(period==4 ∧ clockSeconds≤120) ∨ period≥5`: at period 4,
clock 2:30 (150s), margin 2 the stint builder flags clutch (rule says not),
and at period 5 it never flags clutch (rule says always). -/
theorem C3_counterexample :
    Phase4.is_clutch 4 (some "2:30".data) (some 50) (some 52) = 1 ∧
    ContextSplits.is_clutch (some 4) (some 150) = false ∧
    Phase4.is_clutch 5 (some "3:00".data) (some 50) (some 52) = 0 ∧
    ContextSplits.is_clutch (some 5) (some 180) = true := by
  decide

/-- C2 (counterexample): for the six ordered events of `evsSixDemo` (home
lineup set changes exactly once, between events 3 and 4; elapsed times
0,10,20,30,40,50) the segmenter does emit two home stints with the boundary
there, but their durations sum to 40, not to the total elapsed time 50:
the 10 seconds between events 3 and 4 belong to neither stint. -/
theorem C2_counterexample :
    (Phase4.emit_stints Phase4.Side.home (some "T") evsSixDemo).map
        (fun r => (r.stint_id, r.duration_s)) = [(1, 20), (2, 20)] ∧
    ((Phase4.emit_stints Phase4.Side.home (some "T") evsSixDemo).map
        (fun r => r.duration_s)).sum ≠ 50 - 0 := by
  decide

/-- C6 (counterexample): in `evsThreeDemo` every event carries non-null,
monotonic scores, yet the stint `points_for` values sum to 0 while the
team's final score minus its score at the first recorded event is 2: the
points scored between the boundary-adjacent events of consecutive stints
are counted by neither stint. -/
theorem C6_counterexample :
    evsThreeDemo.map (fun e => e.hp) = [some 0, some 0, some 2] ∧
    evsThreeDemo.map (fun e => e.ap) = [some 0, some 0, some 0] ∧
    ((Phase4.emit_stints Phase4.Side.home (some "T") evsThreeDemo).filterMap
        (fun r => r.points_for)).sum = 0 ∧
    Phase4.scoreOf Phase4.Side.home (evsThreeDemo.getLastD ⟨none, none, none, none⟩) -
      Phase4.scoreOf Phase4.Side.home (evsThreeDemo.headD ⟨none, none, none, none⟩) = 2 ∧
    (0 : Int) ≠ 2 := by
  decide

/-- C4 (counterexample): the normalized coordinate pair is NOT non-negative
in both components: for raw coordinates (100, 50) the horizontal component
is `100 - 564 = -464 < 0` (only the vertical component is folded to be
non-negative). -/
theorem C4_counterexample :
    (BuildActions.normalize_xy_to_hoop (some 100) (some 50)).1 = some (-464) ∧
    ¬ (0 : ℚ) ≤ -464 := by
  constructor
  · norm_num [BuildActions.normalize_xy_to_hoop]
  · norm_num

/-- The `margin_bucket` of a present margin is never "unknown" (helper). -/
theorem margin_bucket_some_ne_unknown (v : ℚ) :
    ContextSplits.margin_bucket (some v) ≠ "unknown" := by
  simp only [ContextSplits.margin_bucket]
  repeat' split
  all_goals decide

/-- C10 (confirmed): in the context-splits builder, a row with no (or
non-numeric) `margin_for_team` but a present `margin_home` gets its bucket
from the home-perspective margin unchanged (regardless of the player's
side), and the bucket is "unknown" exactly when both margins are missing. -/
theorem C10_margin_fallback :
    (∀ mh : ℚ, ContextSplits.bucket_of_row none (some mh) =
        ContextSplits.margin_bucket (some mh)) ∧
    (∀ mt mh : Option ℚ,
        (ContextSplits.bucket_of_row mt mh = "unknown" ↔ mt = none ∧ mh = none)) := by
  refine ⟨fun mh => rfl, fun mt mh => ?_⟩
  cases mt with
  | some v =>
    simp only [ContextSplits.bucket_of_row, ContextSplits.margin_used]
    simp [margin_bucket_some_ne_unknown v]
  | none =>
    cases mh with
    | some v =>
      simp only [ContextSplits.bucket_of_row, ContextSplits.margin_used]
      simp [margin_bucket_some_ne_unknown v]
    | none =>
      simp [ContextSplits.bucket_of_row, ContextSplits.margin_used,
        ContextSplits.margin_bucket]

/-- C10 witness: both margins missing gives the "unknown" bucket. -/
theorem C10_witness : ContextSplits.bucket_of_row none none = "unknown" :=
  (C10_margin_fallback.2 none none).mpr ⟨rfl, rfl⟩

/-- C3 (amended): the context-splits builder's clutch flag is exactly
`(period == 4 ∧ clockSeconds ≤ 120) ∨ period ≥ 5`, but the stint builder's
clutch flag is a different rule: period exactly 4 (overtime never clutch),
remaining clock at most 300 seconds, and absolute score margin at most 5. -/
theorem C3_amended (p cs : Int) (clock : List Char) (rem h a : Int)
    (hc : Phase4.clock_to_sec (some clock) = some rem) :
    (ContextSplits.is_clutch (some p) (some cs) = true ↔ ((p = 4 ∧ cs ≤ 120) ∨ 5 ≤ p)) ∧
    (Phase4.is_clutch p (some clock) (some h) (some a) = 1 ↔
      (p = 4 ∧ rem ≤ 300 ∧ |h - a| ≤ 5)) := by
  constructor
  · simp [ContextSplits.is_clutch, ge_iff_le]
  · by_cases hp : p = 4
    · subst hp
      simp only [Phase4.is_clutch, hc, ne_eq, not_true_eq_false, if_false]
      by_cases h2 : rem ≤ 300 ∧ |h - a| ≤ 5
      · simp [h2]
      · simp [h2]
    · simp [Phase4.is_clutch, hp]

/-- C3 witness: at period 4, clock "1:45" (105 seconds remaining), margin 2,
the context-splits rule flags clutch and — since 105 ≤ 300 and 2 ≤ 5 — the
stint builder does too. -/
theorem C3_witness :
    ContextSplits.is_clutch (some 4) (some 105) = true ∧
    Phase4.is_clutch 4 (some "1:45".data) (some 50) (some 52) = 1 := by
  refine ⟨?_, ?_⟩
  · exact ((C3_amended 4 105 "1:45".data 105 50 52 (by decide)).1).mpr (Or.inl ⟨rfl, by decide⟩)
  · exact ((C3_amended 4 105 "1:45".data 105 50 52 (by decide)).2).mpr
      ⟨rfl, by decide, by decide⟩

/-- C4 (amended): for numeric coordinates the normalizer returns
`hx = x - 564` unchanged in sign (centred on the court, negative left of
centre) and a folded vertical component `|600 - y|` (far half) or `|y|`
(near half); only the vertical component is guaranteed non-negative. -/
theorem C4_amended (x y : ℚ) :
    BuildActions.normalize_xy_to_hoop (some x) (some y) =
      (some (x - 564), some (if 300 < y then |600 - y| else |y|)) ∧
    0 ≤ (if 300 < y then |600 - y| else |y|) := by
  constructor
  · simp only [BuildActions.normalize_xy_to_hoop]
    rcases lt_or_le 300 y with h | h
    · rcases lt_or_le (600 - y) 0 with h2 | h2
      · simp [h, h2, abs_of_neg h2]
      · simp [h, not_lt.mpr h2, abs_of_nonneg h2]
    · rcases lt_or_le y 0 with h2 | h2
      · simp [not_lt.mpr h, h2, abs_of_neg h2]
      · simp [not_lt.mpr h, not_lt.mpr h2, abs_of_nonneg h2]
  · split
    · exact abs_nonneg _
    · exact abs_nonneg _

/-- C9 (amended): when NO pattern yields a turnover name, the actions-table
builder (which tries the leading-subject pattern and then `"turnover by
NAME"`) drops the event with no Issue row, whereas the core-actions parser
(which only tries the leading-subject pattern) records a
`could_not_parse_turnover` issue. -/
theorem C9_amended (desc : List Char) (lut : Lut) (am : AliasMap)
    (pt ps : Option String) (tt : List Char) (cl : Bool)
    (ha : BuildActions.re_tov_a desc = none) (hb : BuildActions.re_tov_b desc = none)
    (hcp : CoreParse.re_tov desc = none) :
    BuildActions.tov_branch desc lut am pt ps = ([], []) ∧
    CoreParse.tov_branch desc lut pt ps tt cl =
      ([], [CoreParse.Problem.could_not_parse_turnover]) := by
  constructor
  · simp [BuildActions.tov_branch, ha, hb]
  · simp [CoreParse.tov_branch, hcp]

/-- C9 witness: a team-level violation description with no extractable
name. -/
theorem C9_witness :
    BuildActions.tov_branch "offensive three seconds violation".data rosterJane [] none none =
      ([], []) ∧
    CoreParse.tov_branch "offensive three seconds violation".data rosterJane none none [] false =
      ([], [CoreParse.Problem.could_not_parse_turnover]) :=
  C9_amended "offensive three seconds violation".data rosterJane [] none none [] false
    (by decide) (by decide) (by decide)

/-- Rational characterization of `zone_from_xy` by squared distance
(helper). -/
theorem zone_cases (hx hy : ℚ) :
    (hx * hx + hy * hy ≤ 60 * 60 → Spatial.zone_from_xy hx hy = "rim") ∧
    (¬ hx * hx + hy * hy ≤ 60 * 60 → hx * hx + hy * hy ≤ 140 * 140 →
      Spatial.zone_from_xy hx hy = "paint") ∧
    (¬ hx * hx + hy * hy ≤ 140 * 140 → hx * hx + hy * hy < 240 * 240 →
      Spatial.zone_from_xy hx hy = "mid") ∧
    (240 * 240 ≤ hx * hx + hy * hy → 250 ≤ |hx| →
      Spatial.zone_from_xy hx hy = "corner3") ∧
    (240 * 240 ≤ hx * hx + hy * hy → |hx| < 250 →
      Spatial.zone_from_xy hx hy = "ab3") := by
  simp only [Spatial.zone_from_xy]
  refine ⟨fun h1 => ?_, fun h1 h2 => ?_, fun h2 h3 => ?_, fun h3 h4 => ?_, fun h3 h4 => ?_⟩
  · rw [if_pos h1]
  · rw [if_neg h1, if_pos h2]
  · rw [if_neg (fun hcon => h2 (by linarith)), if_neg h2, if_pos (not_le.mpr h3)]
  · rw [if_neg (fun hcon => absurd h3 (by push_neg; linarith)),
      if_neg (fun hcon => absurd h3 (by push_neg; linarith)),
      if_neg (not_not_intro h3), if_pos h4]
  · rw [if_neg (fun hcon => absurd h3 (by push_neg; linarith)),
      if_neg (fun hcon => absurd h3 (by push_neg; linarith)),
      if_neg (not_not_intro h3), if_neg (not_le.mpr h4)]

/-- C8 (confirmed): for every normalized pair `(hx, hy)` the zone
classifier returns rim iff `d = √(hx²+hy²) ≤ 60`, else paint for `d ≤ 140`,
else mid for `d < 240`, and in three-point range (`240 ≤ d`) corner3 when
`|hx| ≥ 250` else ab3 — exactly these boundary inclusions. -/
theorem C8_zone_from_xy (hx hy : ℚ) :
    (Real.sqrt ((hx : ℝ) ^ 2 + (hy : ℝ) ^ 2) ≤ 60 →
      Spatial.zone_from_xy hx hy = "rim") ∧
    (60 < Real.sqrt ((hx : ℝ) ^ 2 + (hy : ℝ) ^ 2) →
      Real.sqrt ((hx : ℝ) ^ 2 + (hy : ℝ) ^ 2) ≤ 140 →
      Spatial.zone_from_xy hx hy = "paint") ∧
    (140 < Real.sqrt ((hx : ℝ) ^ 2 + (hy : ℝ) ^ 2) →
      Real.sqrt ((hx : ℝ) ^ 2 + (hy : ℝ) ^ 2) < 240 →
      Spatial.zone_from_xy hx hy = "mid") ∧
    (240 ≤ Real.sqrt ((hx : ℝ) ^ 2 + (hy : ℝ) ^ 2) → 250 ≤ |hx| →
      Spatial.zone_from_xy hx hy = "corner3") ∧
    (240 ≤ Real.sqrt ((hx : ℝ) ^ 2 + (hy : ℝ) ^ 2) → |hx| < 250 →
      Spatial.zone_from_xy hx hy = "ab3") := by
  have hcast : ((hx * hx + hy * hy : ℚ) : ℝ) = (hx : ℝ) ^ 2 + (hy : ℝ) ^ 2 := by
    push_cast
    ring
  have hle : ∀ T : ℚ, 0 ≤ T →
      (Real.sqrt ((hx : ℝ) ^ 2 + (hy : ℝ) ^ 2) ≤ (T : ℝ) ↔ hx * hx + hy * hy ≤ T * T) := by
    intro T hT
    rw [← hcast, Real.sqrt_le_left (by exact_mod_cast hT)]
    constructor
    · intro h
      have : (T : ℝ) ^ 2 = ((T * T : ℚ) : ℝ) := by push_cast; ring
      exact_mod_cast this ▸ h
    · intro h
      have h2 : ((hx * hx + hy * hy : ℚ) : ℝ) ≤ ((T * T : ℚ) : ℝ) := by exact_mod_cast h
      calc ((hx * hx + hy * hy : ℚ) : ℝ) ≤ ((T * T : ℚ) : ℝ) := h2
        _ = (T : ℝ) ^ 2 := by push_cast; ring
  have hlt : ∀ T : ℚ, 0 < T →
      (Real.sqrt ((hx : ℝ) ^ 2 + (hy : ℝ) ^ 2) < (T : ℝ) ↔ hx * hx + hy * hy < T * T) := by
    intro T hT
    rw [← hcast, Real.sqrt_lt' (by exact_mod_cast hT)]
    constructor
    · intro h
      have h2 : ((hx * hx + hy * hy : ℚ) : ℝ) < ((T * T : ℚ) : ℝ) := by
        calc ((hx * hx + hy * hy : ℚ) : ℝ) < (T : ℝ) ^ 2 := h
          _ = ((T * T : ℚ) : ℝ) := by push_cast; ring
      exact_mod_cast h2
    · intro h
      have h2 : ((hx * hx + hy * hy : ℚ) : ℝ) < ((T * T : ℚ) : ℝ) := by exact_mod_cast h
      calc ((hx * hx + hy * hy : ℚ) : ℝ) < ((T * T : ℚ) : ℝ) := h2
        _ = (T : ℝ) ^ 2 := by push_cast; ring
  obtain ⟨z1, z2, z3, z4, z5⟩ := zone_cases hx hy
  refine ⟨fun h => ?_, fun h1 h2 => ?_, fun h1 h2 => ?_, fun h1 h2 => ?_, fun h1 h2 => ?_⟩
  · exact z1 (by exact_mod_cast (hle 60 (by norm_num)).mp (by exact_mod_cast h))
  · refine z2 (fun hcon => absurd ((hle 60 (by norm_num)).mpr hcon) ?_)
      ((hle 140 (by norm_num)).mp (by exact_mod_cast h2))
    push_neg
    exact_mod_cast h1
  · refine z3 (fun hcon => absurd ((hle 140 (by norm_num)).mpr hcon) ?_)
      ((hlt 240 (by norm_num)).mp (by exact_mod_cast h2))
    push_neg
    exact_mod_cast h1
  · refine z4 ?_ h2
    by_contra hcon
    push_neg at hcon
    exact absurd ((hlt 240 (by norm_num)).mpr hcon) (by push_neg; exact_mod_cast h1)
  · refine z5 ?_ h2
    by_contra hcon
    push_neg at hcon
    exact absurd ((hlt 240 (by norm_num)).mpr hcon) (by push_neg; exact_mod_cast h1)

/-- C8 witness: the origin lies in the rim zone. -/
theorem C8_witness : Spatial.zone_from_xy 0 0 = "rim" :=
  (C8_zone_from_xy 0 0).1 (by
    rw [show ((0 : ℚ) : ℝ) ^ 2 + ((0 : ℚ) : ℝ) ^ 2 = (0 : ℝ) by norm_num, Real.sqrt_zero]
    norm_num)

/-- `find?` returns the first element satisfying the predicate (helper). -/
theorem find?_first {α : Type _} (p : α → Bool) (pre : List α) (x : α) (suf : List α)
    (hpre : ∀ y ∈ pre, p y = false) (hx : p x = true) :
    (pre ++ x :: suf).find? p = some x := by
  induction pre with
  | nil => simp [List.find?_cons, hx]
  | cons a t ih =>
    have ha : p a = false := hpre a (by simp)
    simp only [List.cons_append, List.find?_cons, ha]
    exact ih (fun y hy => hpre y (by simp [hy]))

/-- C1 (amended): resolution of a name key with zero candidates fails, with
one candidate succeeds regardless of hint; with several candidates BOTH
resolvers return the FIRST candidate (in roster order) whose team equals
the hint when at least one matches; when no candidate matches the hint, or
there is no hint, `resolve_player_id` fails (`None`) but
`resolve_name_to_playerId` logs an ambiguity issue and still returns the
first candidate's id by list position. -/
theorem C1_amended :
    (∀ raw lut am pref, lutGet lut (aliasGet am (BuildActions.norm_name raw)) = [] →
        BuildActions.resolve_player_id raw lut am pref = none) ∧
    (∀ raw lut am pref c, lutGet lut (aliasGet am (BuildActions.norm_name raw)) = [c] →
        BuildActions.resolve_player_id raw lut am pref = some c.pid) ∧
    (∀ raw lut am c c2 rest,
        lutGet lut (aliasGet am (BuildActions.norm_name raw)) = c :: c2 :: rest →
        BuildActions.resolve_player_id raw lut am none = none) ∧
    (∀ raw lut am t c c2 rest,
        lutGet lut (aliasGet am (BuildActions.norm_name raw)) = c :: c2 :: rest →
        (∀ x ∈ c :: c2 :: rest, x.tid ≠ t) →
        BuildActions.resolve_player_id raw lut am (some t) = none) ∧
    (∀ raw lut am t c c2 rest pre x suf,
        lutGet lut (aliasGet am (BuildActions.norm_name raw)) = c :: c2 :: rest →
        c :: c2 :: rest = pre ++ x :: suf →
        (∀ y ∈ pre, y.tid ≠ t) → x.tid = t →
        BuildActions.resolve_player_id raw lut am (some t) = some x.pid) ∧
    (∀ raw lut pref, CoreParse.norm_name raw = [] →
        CoreParse.resolve_name_to_playerId raw lut pref =
          (none, [CoreParse.Problem.empty_name])) ∧
    (∀ raw lut pref, CoreParse.norm_name raw ≠ [] →
        lutGet lut (CoreParse.norm_name raw) = [] →
        CoreParse.resolve_name_to_playerId raw lut pref =
          (none, [CoreParse.Problem.name_not_found])) ∧
    (∀ raw lut pref c, CoreParse.norm_name raw ≠ [] →
        lutGet lut (CoreParse.norm_name raw) = [c] →
        CoreParse.resolve_name_to_playerId raw lut pref = (some c.pid, [])) ∧
    (∀ raw lut c c2 rest, CoreParse.norm_name raw ≠ [] →
        lutGet lut (CoreParse.norm_name raw) = c :: c2 :: rest →
        CoreParse.resolve_name_to_playerId raw lut none =
          (some c.pid, [CoreParse.Problem.ambiguous_name (c :: c2 :: rest).length])) ∧
    (∀ raw lut t c c2 rest, CoreParse.norm_name raw ≠ [] →
        lutGet lut (CoreParse.norm_name raw) = c :: c2 :: rest →
        (∀ x ∈ c :: c2 :: rest, x.tid ≠ t) →
        CoreParse.resolve_name_to_playerId raw lut (some t) =
          (some c.pid, [CoreParse.Problem.ambiguous_name (c :: c2 :: rest).length])) ∧
    (∀ raw lut t c c2 rest pre x suf, CoreParse.norm_name raw ≠ [] →
        lutGet lut (CoreParse.norm_name raw) = c :: c2 :: rest →
        c :: c2 :: rest = pre ++ x :: suf →
        (∀ y ∈ pre, y.tid ≠ t) → x.tid = t →
        CoreParse.resolve_name_to_playerId raw lut (some t) = (some x.pid, [])) := by
  refine ⟨?_, ?_, ?_, ?_, ?_, ?_, ?_, ?_, ?_, ?_, ?_⟩
  · intro raw lut am pref h
    simp [BuildActions.resolve_player_id, h]
  · intro raw lut am pref c h
    simp [BuildActions.resolve_player_id, h]
  · intro raw lut am c c2 rest h
    simp [BuildActions.resolve_player_id, h]
  · intro raw lut am t c c2 rest h hne
    have hfind : (c :: c2 :: rest).find? (fun x => x.tid == t) = none := by
      rw [List.find?_eq_none]
      intro x hx
      simp [hne x hx]
    simp [BuildActions.resolve_player_id, h, hfind]
  · intro raw lut am t c c2 rest pre x suf h hsplit hpre hx
    have hfind : (c :: c2 :: rest).find? (fun y => y.tid == t) = some x := by
      rw [hsplit]
      exact find?_first _ pre x suf (fun y hy => by simp [hpre y hy]) (by simp [hx])
    simp [BuildActions.resolve_player_id, h, hfind]
  · intro raw lut pref h
    simp [CoreParse.resolve_name_to_playerId, h]
  · intro raw lut pref h h2
    simp [CoreParse.resolve_name_to_playerId, h, h2]
  · intro raw lut pref c h h2
    simp [CoreParse.resolve_name_to_playerId, h, h2]
  · intro raw lut c c2 rest h h2
    simp [CoreParse.resolve_name_to_playerId, h, h2]
  · intro raw lut t c c2 rest h h2 hne
    have hfind : (c :: c2 :: rest).find? (fun x => x.tid == t) = none := by
      rw [List.find?_eq_none]
      intro x hx
      simp [hne x hx]
    simp [CoreParse.resolve_name_to_playerId, h, h2, hfind]
  · intro raw lut t c c2 rest pre x suf h h2 hsplit hpre hx
    have hfind : (c :: c2 :: rest).find? (fun y => y.tid == t) = some x := by
      rw [hsplit]
      exact find?_first _ pre x suf (fun y hy => by simp [hpre y hy]) (by simp [hx])
    simp [CoreParse.resolve_name_to_playerId, h, h2, hfind]

/-- C1 witness: with the two-team roster, a hint matching the second
candidate picks that candidate, and a non-matching hint makes
`resolve_name_to_playerId` return the first candidate with an ambiguity
issue. -/
theorem C1_witness :
    BuildActions.resolve_player_id "Jane Doe".data rosterTwoTeams [] (some "BBB") =
      some "P2" ∧
    CoreParse.resolve_name_to_playerId "Jane Doe".data rosterTwoTeams (some "CCC") =
      (some "P1", [CoreParse.Problem.ambiguous_name 2]) := by
  obtain ⟨-, -, -, -, b5, -, -, -, -, p5, -⟩ := C1_amended
  constructor
  · exact b5 "Jane Doe".data rosterTwoTeams [] "BBB"
      ⟨"P1", "AAA", "Jane Doe"⟩ ⟨"P2", "BBB", "Jane Doe"⟩ []
      [⟨"P1", "AAA", "Jane Doe"⟩] ⟨"P2", "BBB", "Jane Doe"⟩ []
      (by decide) rfl (by decide) rfl
  · exact p5 "Jane Doe".data rosterTwoTeams "CCC"
      ⟨"P1", "AAA", "Jane Doe"⟩ ⟨"P2", "BBB", "Jane Doe"⟩ []
      (by decide) (by decide) (by decide)

/-- C2 (amended): for six temporally ordered events (times `t1 ≤ ... ≤ t6`,
all with lineups after forward filling) whose home lineup set changes
exactly once, between events 3 and 4, the segmenter emits exactly two home
stints with increasing ids 1 and 2 and the boundary there; each stint's
duration spans only its own events (`t3-t1` and `t6-t4`), so the two
durations sum to the total elapsed time MINUS the gap `t4-t3` between the
boundary-adjacent events — they equal the total exactly when events 3 and 4
share an elapsed time. -/
theorem C2_amended (e1 e2 e3 e4 e5 e6 : Phase4.Ev) (A B : List String)
    (t1 t2 t3 t4 t5 t6 : Int) (tid : String)
    (hl1 : e1.lineup = some A) (hl2 : e2.lineup = some A) (hl3 : e3.lineup = some A)
    (hl4 : e4.lineup = some B) (hl5 : e5.lineup = some B) (hl6 : e6.lineup = some B)
    (hAB : A ≠ B)
    (ht1 : e1.t = some t1) (ht2 : e2.t = some t2) (ht3 : e3.t = some t3)
    (ht4 : e4.t = some t4) (ht5 : e5.t = some t5) (ht6 : e6.t = some t6)
    (h12 : t1 ≤ t2) (h23 : t2 ≤ t3) (h34 : t3 ≤ t4) (h45 : t4 ≤ t5) (h56 : t5 ≤ t6) :
    (Phase4.emit_stints Phase4.Side.home (some tid) [e1, e2, e3, e4, e5, e6]).map
        (fun r => (r.stint_id, r.start_t, r.end_t, r.duration_s)) =
      [(1, t1, t3, t3 - t1), (2, t4, t6, t6 - t4)] ∧
    ((Phase4.emit_stints Phase4.Side.home (some tid) [e1, e2, e3, e4, e5, e6]).map
        (fun r => r.duration_s)).sum = (t6 - t1) - (t4 - t3) := by
  have hsub : Phase4.subEvents [e1, e2, e3, e4, e5, e6] = [e1, e2, e3, e4, e5, e6] := by
    simp [Phase4.subEvents, hl1, hl2, hl3, hl4, hl5, hl6, ht1, ht2, ht3, ht4, ht5, ht6]
  have hgr : Phase4.groupRuns [e1, e2, e3, e4, e5, e6] = [(e1, [e2, e3]), (e4, [e5, e6])] := by
    simp [Phase4.groupRuns, Phase4.consRun, hl1, hl2, hl3, hl4, hl5, hl6, hAB]
  constructor
  · simp only [Phase4.emit_stints, hsub, hgr, Phase4.mkRow, Phase4.runEvents,
      List.enum, List.enumFrom, List.map, List.filterMap, ht1, ht2, ht3, ht4, ht5, ht6,
      List.getLastD, List.headD, List.foldl, List.cons.injEq, Prod.mk.injEq,
      List.nil_eq, and_true, true_and]
    omega
  · simp only [Phase4.emit_stints, hsub, hgr, Phase4.mkRow, Phase4.runEvents,
      List.enum, List.enumFrom, List.map, List.filterMap, ht1, ht2, ht3, ht4, ht5, ht6,
      List.getLastD, List.headD, List.foldl, List.sum_cons, List.sum_nil]
    omega

/-- C2 witness: six concrete ordered events with one lineup change between
events 3 and 4 yield stints (1, 0..20) and (2, 30..50). -/
theorem C2_witness :
    (Phase4.emit_stints Phase4.Side.home (some "T")
        [⟨some 0, some ["a1", "a2", "a3", "a4", "a5"], some 0, some 0⟩,
         ⟨some 10, some ["a1", "a2", "a3", "a4", "a5"], some 0, some 0⟩,
         ⟨some 20, some ["a1", "a2", "a3", "a4", "a5"], some 0, some 0⟩,
         ⟨some 30, some ["a1", "a2", "a3", "a4", "a6"], some 0, some 0⟩,
         ⟨some 40, some ["a1", "a2", "a3", "a4", "a6"], some 0, some 0⟩,
         ⟨some 50, some ["a1", "a2", "a3", "a4", "a6"], some 0, some 0⟩]).map
        (fun r => (r.stint_id, r.start_t, r.end_t, r.duration_s)) =
      [(1, 0, 20, 20 - 0), (2, 30, 50, 50 - 30)] :=
  (C2_amended
    ⟨some 0, some ["a1", "a2", "a3", "a4", "a5"], some 0, some 0⟩
    ⟨some 10, some ["a1", "a2", "a3", "a4", "a5"], some 0, some 0⟩
    ⟨some 20, some ["a1", "a2", "a3", "a4", "a5"], some 0, some 0⟩
    ⟨some 30, some ["a1", "a2", "a3", "a4", "a6"], some 0, some 0⟩
    ⟨some 40, some ["a1", "a2", "a3", "a4", "a6"], some 0, some 0⟩
    ⟨some 50, some ["a1", "a2", "a3", "a4", "a6"], some 0, some 0⟩
    ["a1", "a2", "a3", "a4", "a5"] ["a1", "a2", "a3", "a4", "a6"]
    0 10 20 30 40 50 "T"
    rfl rfl rfl rfl rfl rfl (by decide)
    rfl rfl rfl rfl rfl rfl
    (by decide) (by decide) (by decide) (by decide) (by decide)).1

/-- `getLastD l a` is the default or a member of the list (helper). -/
theorem getLastD_mem {α : Type _} (l : List α) (a : α) : l.getLastD a ∈ a :: l := by
  induction l generalizing a with
  | nil => simp
  | cons b t ih =>
    rw [List.getLastD_cons]
    exact List.mem_cons_of_mem a (ih b)

/-- `getLast?` of a cons in `getLastD` form (helper). -/
theorem getLast?_cons_eq {α : Type _} (e : α) (rest : List α) :
    (e :: rest).getLast? = some (rest.getLastD e) := by
  induction rest generalizing e with
  | nil => rfl
  | cons a t ih =>
    rw [List.getLast?_cons_cons, ih a, List.getLastD_cons]

/-- The first run produced by `groupRuns` starts with the first event
(helper). -/
theorem groupRuns_head (e : Phase4.Ev) (rest : List Phase4.Ev) :
    ∃ tl gs, Phase4.groupRuns (e :: rest) = (e, tl) :: gs := by
  cases rest with
  | nil => exact ⟨[], [], rfl⟩
  | cons e2 r =>
    simp only [Phase4.groupRuns]
    by_cases h : e.lineup = e2.lineup
    · rw [if_pos h]
      rcases hgr : Phase4.groupRuns (e2 :: r) with - | ⟨g, gs⟩
      · exact ⟨[], [], by simp [Phase4.consRun]⟩
      · exact ⟨g.1 :: g.2, gs, by simp [Phase4.consRun]⟩
    · rw [if_neg h]
      exact ⟨[], _, rfl⟩

/-- Every event of every run produced by `groupRuns` comes from the input
list (helper). -/
theorem groupRuns_mem : ∀ (l : List Phase4.Ev) (g : Phase4.Ev × List Phase4.Ev),
    g ∈ Phase4.groupRuns l → ∀ e ∈ Phase4.runEvents g, e ∈ l
  | [], g, hg => by simp [Phase4.groupRuns] at hg
  | [e1], g, hg => by
    simp only [Phase4.groupRuns, List.mem_singleton] at hg
    subst hg
    simp [Phase4.runEvents]
  | e1 :: e2 :: rest, g, hg => by
    simp only [Phase4.groupRuns] at hg
    by_cases hl : e1.lineup = e2.lineup
    · rw [if_pos hl] at hg
      rcases hgr : Phase4.groupRuns (e2 :: rest) with - | ⟨g2, gs⟩
      · rw [hgr] at hg
        simp only [Phase4.consRun, List.mem_singleton] at hg
        subst hg
        intro e he
        simp only [Phase4.runEvents, List.mem_cons, List.not_mem_nil, or_false] at he
        simp [he]
      · rw [hgr] at hg
        simp only [Phase4.consRun, List.mem_cons] at hg
        rcases hg with hg | hg
        · subst hg
          intro e he
          simp only [Phase4.runEvents, List.mem_cons] at he
          rcases he with he | he
          · simp [he]
          · have h2 : e ∈ e2 :: rest :=
              groupRuns_mem (e2 :: rest) g2 (by rw [hgr]; simp) e
                (by simpa [Phase4.runEvents] using he)
            simp [List.mem_cons_of_mem, h2]
        · intro e he
          have h2 : e ∈ e2 :: rest :=
            groupRuns_mem (e2 :: rest) g (by rw [hgr]; exact List.mem_cons_of_mem _ hg) e he
          simp [h2]
    · rw [if_neg hl] at hg
      simp only [List.mem_cons] at hg
      rcases hg with hg | hg
      · subst hg
        intro e he
        simp only [Phase4.runEvents, List.mem_cons, List.not_mem_nil, or_false] at he
        simp [he]
      · intro e he
        have h2 : e ∈ e2 :: rest := groupRuns_mem (e2 :: rest) g hg e he
        simp [h2]

/-- The last event of the last run produced by `groupRuns` is the last
event of the input list (helper). -/
theorem groupRuns_last : ∀ (e : Phase4.Ev) (rest : List Phase4.Ev),
    Phase4.lastRunEvent ((Phase4.groupRuns (e :: rest)).getLastD (e, [])) =
      rest.getLastD e
  | e, [] => rfl
  | e, e2 :: rest => by
    have ih := groupRuns_last e2 rest
    simp only [Phase4.groupRuns]
    obtain ⟨tl, gs, hgr⟩ := groupRuns_head e2 rest
    rw [hgr] at ih
    rw [List.getLastD_cons] at ih
    by_cases hl : e.lineup = e2.lineup
    · rw [if_pos hl, hgr]
      cases gs with
      | nil =>
        simp only [Phase4.consRun]
        rw [List.getLastD_cons, List.getLastD_nil]
        rw [List.getLastD_nil] at ih
        rw [List.getLastD_cons]
        show (e2 :: tl).getLastD e = rest.getLastD e2
        rw [List.getLastD_cons]
        exact ih
      | cons g3 gs3 =>
        simp only [Phase4.consRun]
        rw [List.getLastD_cons] at ih
        exact (congrArg Phase4.lastRunEvent (List.getLastD_cons (e, e2 :: tl) g3 gs3)).trans
          (ih.trans (List.getLastD_cons e e2 rest).symm)
    · rw [if_neg hl, hgr]
      rw [List.getLastD_cons, List.getLastD_cons]
      rw [ih, List.getLastD_cons]

/-- When both scores are present at a run's first and last event, the row's
`points_for` is the own-side score delta (helper). -/
theorem mkRow_points_for (side : Phase4.Side) (tid : String) (i : Nat)
    (g : Phase4.Ev × List Phase4.Ev)
    (h1 : g.1.hp.isSome) (h2 : g.1.ap.isSome)
    (h3 : (Phase4.lastRunEvent g).hp.isSome) (h4 : (Phase4.lastRunEvent g).ap.isSome) :
    (Phase4.mkRow side tid i g).points_for = some (Phase4.pfVal side g) := by
  obtain ⟨sh, hsh⟩ := Option.isSome_iff_exists.mp h1
  obtain ⟨sa, hsa⟩ := Option.isSome_iff_exists.mp h2
  obtain ⟨eh, heh⟩ := Option.isSome_iff_exists.mp h3
  obtain ⟨ea, hea⟩ := Option.isSome_iff_exists.mp h4
  simp only [Phase4.lastRunEvent] at heh hea
  simp only [Phase4.mkRow, Phase4.pfVal, Phase4.scoreOf, Phase4.lastRunEvent,
    hsh, hsa, heh, hea]
  cases side <;> simp [hsh, heh]

/-- The `points_for` entries of the emitted rows are exactly the per-run
score deltas, independently of the stint id numbering (helper). -/
theorem emit_pf_sum (side : Phase4.Side) (tid : String) :
    ∀ (gs : List (Phase4.Ev × List Phase4.Ev)) (n : Nat),
    (∀ g ∈ gs, g.1.hp.isSome ∧ g.1.ap.isSome ∧
      (Phase4.lastRunEvent g).hp.isSome ∧ (Phase4.lastRunEvent g).ap.isSome) →
    (((gs.enumFrom n).map (fun p => Phase4.mkRow side tid (p.1 + 1) p.2)).filterMap
        (fun r => r.points_for)).sum = (gs.map (Phase4.pfVal side)).sum
  | [], n, _ => rfl
  | g :: gs, n, h => by
    have hg := h g (by simp)
    simp only [List.enumFrom, List.map, List.filterMap_cons,
      mkRow_points_for side tid (n + 1) g hg.1 hg.2.1 hg.2.2.1 hg.2.2.2,
      List.sum_cons]
    rw [emit_pf_sum side tid gs (n + 1) (fun g2 hg2 => h g2 (by simp [hg2]))]

/-- Telescoping of per-run score deltas: their sum is the overall delta
minus the jumps across run boundaries (helper). -/
theorem pf_telescope (side : Phase4.Side) :
    ∀ (g : Phase4.Ev × List Phase4.Ev) (gs : List (Phase4.Ev × List Phase4.Ev)),
    (((g :: gs).map (Phase4.pfVal side)).sum : Int)
      = Phase4.scoreOf side (Phase4.lastRunEvent (gs.getLastD g))
        - Phase4.scoreOf side g.1 - Phase4.gapSum side (g :: gs)
  | g, [] => by simp [Phase4.pfVal, Phase4.gapSum]
  | g, g2 :: gs => by
    have ih := pf_telescope side g2 gs
    simp only [List.map, List.sum_cons] at ih ⊢
    rw [List.getLastD_cons]
    simp only [Phase4.gapSum, Phase4.pfVal] at ih ⊢
    omega

/-- C6 (amended): per stint, `points_for`/`points_against` are the own /
opponent score deltas between the stint's first and last event (null unless
all four scores are present, as `mkRow` shows); and for a game whose
events (post dropna) all carry scores, summing `points_for` over a team's
stints gives the team's final score minus its score at the first recorded
event MINUS the score jumps across stint boundaries — scoring recorded
between the last event of one stint and the first event of the next is
counted by neither stint. -/
theorem C6_amended (side : Phase4.Side) (tid : String) (evs : List Phase4.Ev)
    (hsub : Phase4.subEvents evs = evs)
    (hs : ∀ e ∈ evs, e.hp.isSome ∧ e.ap.isSome) :
    ((Phase4.emit_stints side (some tid) evs).filterMap (fun r => r.points_for)).sum
      = (evs.getLast?.map (Phase4.scoreOf side)).getD 0
        - (evs.head?.map (Phase4.scoreOf side)).getD 0
        - Phase4.gapSum side (Phase4.groupRuns evs) := by
  cases evs with
  | nil => simp [Phase4.emit_stints, Phase4.subEvents, Phase4.groupRuns, Phase4.gapSum]
  | cons e rest =>
    have hmem : ∀ g ∈ Phase4.groupRuns (e :: rest),
        g.1.hp.isSome ∧ g.1.ap.isSome ∧
        (Phase4.lastRunEvent g).hp.isSome ∧ (Phase4.lastRunEvent g).ap.isSome := by
      intro g hg
      have h1 : g.1 ∈ e :: rest :=
        groupRuns_mem _ g hg g.1 (by simp [Phase4.runEvents])
      have h2 : Phase4.lastRunEvent g ∈ e :: rest :=
        groupRuns_mem _ g hg _ (by
          simpa [Phase4.runEvents, Phase4.lastRunEvent] using getLastD_mem g.2 g.1)
      exact ⟨(hs _ h1).1, (hs _ h1).2, (hs _ h2).1, (hs _ h2).2⟩
    obtain ⟨tl, gs, hgr⟩ := groupRuns_head e rest
    have hlast := groupRuns_last e rest
    rw [hgr] at hmem hlast
    rw [List.getLastD_cons] at hlast
    simp only [Phase4.emit_stints, hsub, hgr]
    rw [show ((e, tl) :: gs).enum = ((e, tl) :: gs).enumFrom 0 from rfl]
    rw [emit_pf_sum side tid _ 0 hmem]
    rw [pf_telescope side (e, tl) gs]
    rw [hlast]
    rw [getLast?_cons_eq]
    simp

/-- C6 witness: the three-event game satisfies the score hypotheses, and
its stint `points_for` sum telescopes as described. -/
theorem C6_witness :
    ((Phase4.emit_stints Phase4.Side.home (some "T") evsThreeDemo).filterMap
        (fun r => r.points_for)).sum
      = (evsThreeDemo.getLast?.map (Phase4.scoreOf Phase4.Side.home)).getD 0
        - (evsThreeDemo.head?.map (Phase4.scoreOf Phase4.Side.home)).getD 0
        - Phase4.gapSum Phase4.Side.home (Phase4.groupRuns evsThreeDemo) :=
  C6_amended Phase4.Side.home "T" evsThreeDemo (by decide) (by decide)

/-- `Char.toLower` is idempotent (helper). -/
theorem toLower_idem (c : Char) : Char.toLower (Char.toLower c) = Char.toLower c := by
  unfold Char.toLower
  by_cases h : Char.toNat c ≥ 65 ∧ Char.toNat c ≤ 90
  · rw [if_pos h]
    have hv : (Char.ofNat (Char.toNat c + 32)).toNat = Char.toNat c + 32 := by
      have hval : Nat.isValidChar (Char.toNat c + 32) := Or.inl (by omega)
      unfold Char.ofNat
      rw [dif_pos hval]
      show (UInt32.ofNat' _ _).toNat = _
      simp [UInt32.ofNat', UInt32.toNat]
    rw [if_neg (by rw [hv]; omega)]
  · rw [if_neg h, if_neg h]

/-- `lowerRepl` is idempotent (helper). -/
theorem lowerRepl_idem (c : Char) : lowerRepl (lowerRepl c) = lowerRepl c := by
  unfold lowerRepl
  by_cases h : Char.toLower c = rsquo
  · rw [if_pos h]
    rfl
  · rw [if_neg h, toLower_idem, if_neg h]

/-- Characters of `collapseWS l` are non-whitespace characters of `l` or
plain spaces (helper). -/
theorem collapse_mem : ∀ (l : List Char), ∀ c ∈ collapseWS l,
    (c ∈ l ∧ isWS c = false) ∨ c = ' '
  | [] => by simp [collapseWS]
  | [a] => by
    intro c hc
    by_cases ha : isWS a
    · simp [collapseWS, ha] at hc
      exact Or.inr hc
    · simp [collapseWS, ha] at hc
      exact Or.inl ⟨by simp [hc], by simpa [hc] using ha⟩
  | a :: d :: r => by
    intro c hc
    have ih := collapse_mem (d :: r)
    by_cases ha : isWS a
    · by_cases hd : isWS d
      · simp only [collapseWS, ha, hd, if_true] at hc
        rcases ih c hc with ⟨h1, h2⟩ | h1
        · exact Or.inl ⟨List.mem_cons_of_mem a h1, h2⟩
        · exact Or.inr h1
      · rw [show collapseWS (a :: d :: r) = ' ' :: collapseWS (d :: r) by
          simp [collapseWS, ha, hd]] at hc
        simp only [List.mem_cons] at hc
        rcases hc with hc | hc
        · exact Or.inr hc
        · rcases ih c hc with ⟨h1, h2⟩ | h1
          · exact Or.inl ⟨List.mem_cons_of_mem a h1, h2⟩
          · exact Or.inr h1
    · rw [show collapseWS (a :: d :: r) = a :: collapseWS (d :: r) by
        simp [collapseWS, ha]] at hc
      simp only [List.mem_cons] at hc
      rcases hc with hc | hc
      · exact Or.inl ⟨by simp [hc], by simpa [hc] using ha⟩
      · rcases ih c hc with ⟨h1, h2⟩ | h1
        · exact Or.inl ⟨List.mem_cons_of_mem a h1, h2⟩
        · exact Or.inr h1

/-- `collapseWS` never leaves two adjacent whitespace characters (helper). -/
theorem collapse_chain : ∀ (l : List Char),
    List.Chain' (fun a b => ¬(isWS a = true ∧ isWS b = true)) (collapseWS l)
  | [] => by simp [collapseWS]
  | [a] => by
    by_cases ha : isWS a
    · simp only [collapseWS, ha, if_true]
      exact List.chain'_singleton ' '
    · simp only [collapseWS, ha, if_false]
      exact List.chain'_singleton a
  | a :: d :: r => by
    have ih := collapse_chain (d :: r)
    by_cases ha : isWS a
    · by_cases hd : isWS d
      · simpa only [collapseWS, ha, hd, if_true] using ih
      · simp only [collapseWS, ha, hd, if_true, if_false]
        refine List.chain'_cons'.mpr ⟨?_, ih⟩
        intro y hy
        have : collapseWS (d :: r) = d :: collapseWS r := by
          cases r with
          | nil => simp [collapseWS, hd]
          | cons e r2 => simp [collapseWS, hd]
        rw [this] at hy
        simp only [List.head?_cons, Option.mem_def, Option.some.injEq] at hy
        subst hy
        simp [hd]
    · simp only [collapseWS, ha, if_false]
      refine List.chain'_cons'.mpr ⟨?_, ih⟩
      intro y _
      simp [ha]

/-- `collapseWS` is the identity on strings whose whitespace is single
plain spaces (helper). -/
theorem collapse_id : ∀ (l : List Char),
    (∀ c ∈ l, isWS c = true → c = ' ') →
    List.Chain' (fun a b => ¬(isWS a = true ∧ isWS b = true)) l →
    collapseWS l = l
  | [], _, _ => rfl
  | [a], hws, _ => by
    by_cases ha : isWS a
    · have : a = ' ' := hws a (by simp) ha
      simp [collapseWS, ha, this]
    · simp [collapseWS, ha]
  | a :: d :: r, hws, hch => by
    have ih := collapse_id (d :: r) (fun c hc h => hws c (List.mem_cons_of_mem a hc) h)
      hch.tail
    by_cases ha : isWS a
    · have had : ¬ (isWS d = true) := by
        intro hd
        exact (List.chain'_cons.mp hch).1 ⟨ha, hd⟩
      have haeq : a = ' ' := hws a (by simp) ha
      simp only [collapseWS, ha, if_true]
      rw [if_neg had, ih, haeq]
    · rw [show collapseWS (a :: d :: r) = a :: collapseWS (d :: r) by
        simp [collapseWS, ha], ih]

/-- The head surviving a `dropWhile` falsifies the predicate (helper). -/
theorem dropWhile_head_false (p : Char → Bool) :
    ∀ (l : List Char), ∀ c ∈ (l.dropWhile p).head?, p c = false := by
  intro l
  induction l with
  | nil => simp
  | cons a rest ih =>
    by_cases ha : p a
    · simpa [List.dropWhile_cons_of_pos ha] using ih
    · intro c hc
      simp only [List.dropWhile_cons_of_neg ha, List.head?_cons, Option.mem_def,
        Option.some.injEq] at hc
      rw [← hc]
      simpa using ha

/-- `dropWhile` keeps the last element, or drops everything (helper). -/
theorem dropWhile_getLast?_eq (p : Char → Bool) :
    ∀ (l : List Char), l.dropWhile p = [] ∨ (l.dropWhile p).getLast? = l.getLast?
  | [] => Or.inl rfl
  | a :: rest => by
    by_cases ha : p a
    · rw [List.dropWhile_cons_of_pos ha]
      cases rest with
      | nil => left; rfl
      | cons b r =>
        rcases dropWhile_getLast?_eq p (b :: r) with h | h
        · left; exact h
        · right
          rw [h, List.getLast?_cons_cons]
    · right
      rw [List.dropWhile_cons_of_neg ha]

/-- Characters of `pyStrip l` come from `l` (helper). -/
theorem pyStrip_mem (l : List Char) : ∀ c ∈ pyStrip l, c ∈ l := by
  intro c hc
  unfold pyStrip at hc
  rw [List.mem_reverse] at hc
  have h1 : c ∈ (l.dropWhile isWS).reverse := (List.dropWhile_suffix isWS).subset hc
  rw [List.mem_reverse] at h1
  exact (List.dropWhile_suffix isWS).subset h1

/-- `pyStrip` preserves the no-adjacent-whitespace property (helper). -/
theorem pyStrip_chain (l : List Char)
    (h : List.Chain' (fun a b => ¬(isWS a = true ∧ isWS b = true)) l) :
    List.Chain' (fun a b => ¬(isWS a = true ∧ isWS b = true)) (pyStrip l) := by
  have hsymm : ∀ (x : List Char),
      List.Chain' (fun a b => ¬(isWS a = true ∧ isWS b = true)) x →
      List.Chain' (fun a b => ¬(isWS a = true ∧ isWS b = true)) x.reverse := by
    intro x hx
    rw [List.chain'_reverse]
    exact hx.imp (fun a b hab => by
      intro hcon
      exact hab ⟨hcon.2, hcon.1⟩)
  unfold pyStrip
  exact hsymm _ ((hsymm _ (h.suffix (List.dropWhile_suffix isWS))).suffix
    (List.dropWhile_suffix isWS))

/-- `pyStrip` output neither starts nor ends with whitespace (helper). -/
theorem pyStrip_trimmed (l : List Char) :
    (∀ c ∈ (pyStrip l).head?, isWS c = false) ∧
    (∀ c ∈ (pyStrip l).getLast?, isWS c = false) := by
  constructor
  · intro c hc
    unfold pyStrip at hc
    rw [List.head?_reverse] at hc
    rcases dropWhile_getLast?_eq isWS ((l.dropWhile isWS).reverse) with h | h
    · rw [h] at hc
      simp at hc
    · rw [h, List.getLast?_reverse] at hc
      exact dropWhile_head_false isWS l c hc
  · intro c hc
    unfold pyStrip at hc
    rw [List.getLast?_reverse] at hc
    exact dropWhile_head_false isWS _ c hc

/-- `pyStrip` is the identity on trimmed strings (helper). -/
theorem pyStrip_id (l : List Char)
    (hh : ∀ c ∈ l.head?, isWS c = false)
    (hl : ∀ c ∈ l.getLast?, isWS c = false) : pyStrip l = l := by
  have h1 : l.dropWhile isWS = l := by
    cases l with
    | nil => rfl
    | cons a rest =>
      exact List.dropWhile_cons_of_neg (by simp [hh a (by simp)])
  have h2 : l.reverse.dropWhile isWS = l.reverse := by
    rcases hrev : l.reverse with - | ⟨a, rest⟩
    · rfl
    · have ha : a ∈ l.getLast? := by
        rw [List.getLast?_eq_head?_reverse, hrev]
        simp
      exact List.dropWhile_cons_of_neg (by simp [hl a ha])
  unfold pyStrip
  rw [h1, h2, List.reverse_reverse]

/-- `suffixSub` returns an initial segment of its input (helper). -/
theorem suffixSub_take (t : List Char) : ∃ n, BuildActions.suffixSub t = t.take n := by
  unfold BuildActions.suffixSub
  rcases h : (List.range t.length).find? (fun p => BuildActions.suffixMatchAt t p) with - | p
  · exact ⟨t.length, (List.take_length ..).symm⟩
  · exact ⟨p, rfl⟩

/-- Without a trailing suffix token, `suffixSub` is the identity (helper). -/
theorem suffixSub_id (t : List Char) (h : BuildActions.hasTrailingSuffix t = false) :
    BuildActions.suffixSub t = t := by
  have hn : (List.range t.length).find? (fun p => BuildActions.suffixMatchAt t p) = none := by
    rw [List.find?_eq_none]
    intro p hp hcon
    have : BuildActions.hasTrailingSuffix t = true :=
      List.any_eq_true.mpr ⟨p, hp, hcon⟩
    rw [h] at this
    exact Bool.false_ne_true this
  simp [BuildActions.suffixSub, hn]

/-- Stripping and collapsing a string of kept, lowercase-fixed characters
yields a canonical string (helper). -/
theorem canon_pyStrip_collapse (x : List Char)
    (hx : ∀ c ∈ x, keepChar c = true ∧ lowerRepl c = c) :
    canonStr (pyStrip (collapseWS x)) := by
  refine ⟨?_, pyStrip_chain _ (collapse_chain x), (pyStrip_trimmed _).1, (pyStrip_trimmed _).2⟩
  intro c hc
  have hc2 := pyStrip_mem _ c hc
  rcases collapse_mem x c hc2 with ⟨h1, h2⟩ | h1
  · exact ⟨(hx c h1).1, (hx c h1).2, fun hcon => absurd hcon (by simp [h2])⟩
  · subst h1
    refine ⟨by decide, by decide, fun _ => rfl⟩

/-- `norm_name` always produces a canonical string (helper). -/
theorem canonStr_norm (s : List Char) : canonStr (BuildActions.norm_name s) := by
  have h3 : ∀ c ∈ (((pyStrip s).map lowerRepl).filter keepChar),
      keepChar c = true ∧ lowerRepl c = c := by
    intro c hc
    have hk := List.of_mem_filter hc
    have hm := List.mem_of_mem_filter hc
    obtain ⟨c0, -, hc0⟩ := List.mem_map.mp hm
    exact ⟨hk, by rw [← hc0, lowerRepl_idem]⟩
  have h4 : ∀ c ∈ pyStrip (collapseWS (((pyStrip s).map lowerRepl).filter keepChar)),
      keepChar c = true ∧ lowerRepl c = c := by
    intro c hc
    have hc2 := pyStrip_mem _ c hc
    rcases collapse_mem _ c hc2 with ⟨h1, -⟩ | h1
    · exact h3 c h1
    · subst h1
      exact ⟨by decide, by decide⟩
  have h5 : ∀ c ∈ pyStrip (BuildActions.suffixSub
      (pyStrip (collapseWS (((pyStrip s).map lowerRepl).filter keepChar)))),
      keepChar c = true ∧ lowerRepl c = c := by
    intro c hc
    have hc2 := pyStrip_mem _ c hc
    obtain ⟨n, hn⟩ := suffixSub_take
      (pyStrip (collapseWS (((pyStrip s).map lowerRepl).filter keepChar)))
    rw [hn] at hc2
    exact h4 c (List.take_subset n _ hc2)
  exact canon_pyStrip_collapse _ h5

/-- On a canonical string with no trailing suffix token, `norm_name` is the
identity (helper). -/
theorem norm_name_fix (t : List Char) (hc : canonStr t)
    (hs : BuildActions.hasTrailingSuffix t = false) :
    BuildActions.norm_name t = t := by
  obtain ⟨hm, hch, hh, hl⟩ := hc
  have h1 : pyStrip t = t := pyStrip_id t hh hl
  have h2 : t.map lowerRepl = t := by
    rw [List.map_congr_left (fun c hc => (hm c hc).2.1)]
    exact List.map_id t
  have h3 : t.filter keepChar = t :=
    List.filter_eq_self.mpr (fun c hc => (hm c hc).1)
  have h4 : collapseWS t = t :=
    collapse_id t (fun c hc hws => (hm c hc).2.2 hws) hch
  have h5 : BuildActions.suffixSub t = t := suffixSub_id t hs
  show pyStrip (collapseWS (pyStrip (BuildActions.suffixSub
    (pyStrip (collapseWS ((List.map lowerRepl (pyStrip t)).filter keepChar)))))) = t
  rw [h1, h2, h3, h4, h1, h5, h1, h4, h1]

/-- C5 (amended): `norm_name` of the actions-table builder strips at most
ONE trailing generational suffix token per application, so it is idempotent
exactly on those inputs whose normalised form does not itself end in a
further boundary-delimited suffix token; on such inputs a second
application changes nothing. -/
theorem C5_amended (s : List Char)
    (h : BuildActions.hasTrailingSuffix (BuildActions.norm_name s) = false) :
    BuildActions.norm_name (BuildActions.norm_name s) = BuildActions.norm_name s :=
  norm_name_fix _ (canonStr_norm s) h

/-- C5 witness: a name with a single suffix token normalises to a
suffix-free form, on which normalisation is idempotent. -/
theorem C5_witness :
    BuildActions.norm_name (BuildActions.norm_name "Kelsey Plum Jr.".data) =
      BuildActions.norm_name "Kelsey Plum Jr.".data :=
  C5_amended "Kelsey Plum Jr.".data (by decide)
